import Mathlib

/-!
Verification of the Task Interchange Serialization Engine: the dashboard
module for CSV import and export (parseCSVLine, parseHeader,
findColumnIndices, validateRequiredKeys, findContentColumnIndex,
extractKeysOutsideContent, buildContent, validateRowHasRequiredKeys,
processRow, parseCSV, escapeCSVValue, generateCSV).

Strings are modelled as lists of characters (`Str`).  JavaScript string
methods used by the module (trim, toLowerCase, toUpperCase, split, includes,
replace) are modelled by the corresponding list functions below.  JSON.parse
and JSON.stringify are modelled by an executable JSON value type with a
recursive-descent parser (fuel-indexed, fuel = input length is always
sufficient) and a serializer; JavaScript objects are modelled as
insertion-ordered association lists with JavaScript property-set semantics
(an existing key keeps its position and receives the new value).
-/

abbrev Str := List Char

/-- Double-quote character (the CSV quote character). -/
def dquote : Char := Char.ofNat 34

/-- Opening curly brace. -/
def lbrace : Char := Char.ofNat 123

/-- Closing curly brace. -/
def rbrace : Char := Char.ofNat 125

/-- Whitespace as trimmed by JavaScript String.prototype.trim (ASCII part
plus NBSP and BOM; sufficient for this development). -/
def isJsWhitespace (c : Char) : Bool :=
  c = ' ' || c = '\t' || c = '\n' || c = '\r' ||
  c = Char.ofNat 11 || c = Char.ofNat 12 || c = Char.ofNat 160 || c = Char.ofNat 65279

/-- Model of JavaScript String.prototype.trim. -/
def trimStr (s : Str) : Str :=
  (((s.dropWhile isJsWhitespace).reverse).dropWhile isJsWhitespace).reverse

/-- Model of JavaScript String.prototype.toLowerCase (ASCII range). -/
def lowerStr (s : Str) : Str := s.map Char.toLower

/-- Model of JavaScript String.prototype.toUpperCase (ASCII range). -/
def upperStr (s : Str) : Str := s.map Char.toUpper

/-- Prepend a character to the first field of a field list (the running
field accumulates at the head). -/
def consHead (c : Char) : List Str → List Str
  | [] => [[c]]
  | f :: fs => (c :: f) :: fs

/-- Model of JavaScript String.prototype.split with a one-character
separator: split at every separator occurrence, keeping empty pieces. -/
def splitChar (sep : Char) : Str → List Str
  | [] => [[]]
  | c :: rest =>
      if c = sep then [] :: splitChar sep rest
      else consHead c (splitChar sep rest)

/-- Prepend a whole character list to the first field of a field list. -/
def consAll (a : Str) (fs : List Str) : List Str := a.foldr consHead fs

/-- Model of JavaScript Array.prototype.join with a one-character
separator. -/
def joinWith (sep : Char) : List Str → Str
  | [] => []
  | [p] => p
  | p :: q :: rest => p ++ sep :: joinWith sep (q :: rest)

/-- A cell value with no special characters: trim-fixed (no surrounding
whitespace) and free of commas, quotes and newlines. -/
abbrev plainCell (c : Str) : Prop :=
  trimStr c = c ∧ ∀ ch ∈ c, ch ≠ ',' ∧ ch ≠ dquote ∧ ch ≠ '\n' 

/-! JSON model. -/

/-- JSON values.  Numbers keep the raw numeral token as parsed, which
serializes back to itself (faithful to JavaScript for the integral numerals
appearing in this development).  Objects are insertion-ordered association
lists. -/
inductive Json where
  | null : Json
  | bool (b : Bool) : Json
  | num (raw : Str) : Json
  | str (s : Str) : Json
  | arr (elems : List Json) : Json
  | obj (fields : List (Str × Json)) : Json
deriving Repr

/-- JavaScript property assignment on an insertion-ordered object: an
existing key keeps its position and receives the new value, a new key is
appended. -/
def jsonAssign (fields : List (Str × Json)) (k : Str) (v : Json) : List (Str × Json) :=
  match fields with
  | [] => [(k, v)]
  | (k0, v0) :: rest => if k0 = k then (k0, v) :: rest else (k0, v0) :: jsonAssign rest k v

/-- Escape one character for a JSON string literal, as JSON.stringify does. -/
def escapeJsonChar (c : Char) : Str :=
  if c = dquote then ['\\', dquote]
  else if c = '\\' then ['\\', '\\']
  else if c = Char.ofNat 8 then ['\\', 'b']
  else if c = Char.ofNat 12 then ['\\', 'f']
  else if c = '\n' then ['\\', 'n']
  else if c = '\r' then ['\\', 'r']
  else if c = '\t' then ['\\', 't']
  else if c.toNat < 32 then
    ['\\', 'u', '0', '0',
      (if c.toNat / 16 < 10 then Char.ofNat (48 + c.toNat / 16) else Char.ofNat (87 + c.toNat / 16)),
      (if c.toNat % 16 < 10 then Char.ofNat (48 + c.toNat % 16) else Char.ofNat (87 + c.toNat % 16))]
  else [c]

/-- Serialize a string to a JSON string literal, as JSON.stringify does. -/
def escapeJsonString (s : Str) : Str :=
  dquote :: (s.map escapeJsonChar).flatten ++ [dquote]

mutual

/-- Model of JSON.stringify (no spacing, insertion order). -/
def stringifyJson : Json → Str
  | .null => "null".data
  | .bool true => "true".data
  | .bool false => "false".data
  | .num raw => raw
  | .str s => escapeJsonString s
  | .arr xs => '[' :: stringifyArr xs ++ [']']
  | .obj fs => lbrace :: stringifyFields fs ++ [rbrace]

/-- Serialize array elements, comma separated. -/
def stringifyArr : List Json → Str
  | [] => []
  | [x] => stringifyJson x
  | x :: y :: rest => stringifyJson x ++ ',' :: stringifyArr (y :: rest)

/-- Serialize object fields, comma separated. -/
def stringifyFields : List (Str × Json) → Str
  | [] => []
  | [(k, v)] => escapeJsonString k ++ ':' :: stringifyJson v
  | (k, v) :: p :: rest =>
      escapeJsonString k ++ ':' :: stringifyJson v ++ ',' :: stringifyFields (p :: rest)

end

/-- JSON insignificant whitespace. -/
def isJsonWs (c : Char) : Bool := c = ' ' || c = '\t' || c = '\n' || c = '\r'

/-- Skip JSON insignificant whitespace. -/
def skipWs : Str → Str
  | [] => []
  | c :: rest => if isJsonWs c then skipWs rest else c :: rest

/-- Hexadecimal digit value. -/
def hexVal (c : Char) : Option Nat :=
  if c.isDigit then some (c.toNat - 48)
  else if 'a' ≤ c ∧ c ≤ 'f' then some (c.toNat - 87)
  else if 'A' ≤ c ∧ c ≤ 'F' then some (c.toNat - 55)
  else none

/-- Parse the body of a JSON string literal (after the opening quote),
returning the decoded characters and the remaining input.  Fuel bounded;
fuel equal to the input length always suffices. -/
def parseJsonStringBody : Nat → Str → Option (Str × Str)
  | 0, _ => none
  | _, [] => none
  | fuel + 1, c :: rest =>
    if c = dquote then some ([], rest)
    else if c = '\\' then
      match rest with
      | [] => none
      | e :: rest2 =>
        if e = 'u' then
          match rest2 with
          | h1 :: h2 :: h3 :: h4 :: rest3 =>
            match hexVal h1, hexVal h2, hexVal h3, hexVal h4 with
            | some a, some b, some c2, some d =>
                (parseJsonStringBody fuel rest3).map
                  (fun r => (Char.ofNat (((a * 16 + b) * 16 + c2) * 16 + d) :: r.1, r.2))
            | _, _, _, _ => none
          | _ => none
        else
          match
            (if e = dquote then some dquote
             else if e = '\\' then some '\\'
             else if e = '/' then some '/'
             else if e = 'b' then some (Char.ofNat 8)
             else if e = 'f' then some (Char.ofNat 12)
             else if e = 'n' then some '\n'
             else if e = 'r' then some '\r'
             else if e = 't' then some '\t'
             else none) with
          | some decoded => (parseJsonStringBody fuel rest2).map (fun r => (decoded :: r.1, r.2))
          | none => none
    else if c.toNat < 32 then none
    else (parseJsonStringBody fuel rest).map (fun r => (c :: r.1, r.2))

/-- Parse the integer part of a JSON number (a single zero, or a nonzero
digit followed by digits). -/
def parseIntPart : Str → Option (Str × Str)
  | [] => none
  | c :: rest =>
    if c = '0' then some (['0'], rest)
    else if c.isDigit then some (c :: rest.takeWhile Char.isDigit, rest.dropWhile Char.isDigit)
    else none

/-- Parse the optional fraction part of a JSON number. -/
def parseFracPart (s : Str) : Option (Str × Str) :=
  match s with
  | '.' :: rest =>
      let ds := rest.takeWhile Char.isDigit
      if ds.isEmpty then none else some ('.' :: ds, rest.dropWhile Char.isDigit)
  | _ => some ([], s)

/-- Parse the optional exponent part of a JSON number. -/
def parseExpPart (s : Str) : Option (Str × Str) :=
  match s with
  | c :: rest =>
    if c = 'e' ∨ c = 'E' then
      match rest with
      | s1 :: rest2 =>
        if s1 = '+' ∨ s1 = '-' then
          let ds := rest2.takeWhile Char.isDigit
          if ds.isEmpty then none else some (c :: s1 :: ds, rest2.dropWhile Char.isDigit)
        else
          let ds := rest.takeWhile Char.isDigit
          if ds.isEmpty then none else some (c :: ds, rest.dropWhile Char.isDigit)
      | [] => none
    else some ([], s)
  | [] => some ([], [])

/-- Parse a JSON number token, returning the raw token and the rest. -/
def parseJsonNumber (s : Str) : Option (Str × Str) :=
  let signAndRest : Str × Str := match s with
    | '-' :: r => (['-'], r)
    | _ => ([], s)
  match parseIntPart signAndRest.2 with
  | none => none
  | some (ip, s2) =>
    match parseFracPart s2 with
    | none => none
    | some (fp, s3) =>
      match parseExpPart s3 with
      | none => none
      | some (ep, s4) => some (signAndRest.1 ++ ip ++ fp ++ ep, s4)

mutual

/-- Parse one JSON value at the head of the input (leading whitespace
already skipped).  Fuel bounded; fuel equal to the input length plus one
always suffices. -/
def parseJsonValue : Nat → Str → Option (Json × Str)
  | 0, _ => none
  | fuel + 1, s =>
    match s with
    | [] => none
    | c :: rest =>
      if c = dquote then
        (parseJsonStringBody (rest.length + 1) rest).map (fun r => (.str r.1, r.2))
      else if c = lbrace then
        match skipWs rest with
        | d :: rest2 =>
          if d = rbrace then some (.obj [], rest2)
          else
            (parseJsonFields fuel (d :: rest2)).map
              (fun r => (.obj (r.1.foldl (fun acc p => jsonAssign acc p.1 p.2) []), r.2))
        | [] => none
      else if c = '[' then
        match skipWs rest with
        | d :: rest2 =>
          if d = ']' then some (.arr [], rest2)
          else (parseJsonElems fuel (d :: rest2)).map (fun r => (.arr r.1, r.2))
        | [] => none
      else
        match s with
        | 't' :: 'r' :: 'u' :: 'e' :: r => some (.bool true, r)
        | 'f' :: 'a' :: 'l' :: 's' :: 'e' :: r => some (.bool false, r)
        | 'n' :: 'u' :: 'l' :: 'l' :: r => some (.null, r)
        | _ => (parseJsonNumber s).map (fun r => (.num r.1, r.2))

/-- Parse the fields of a JSON object (positioned at the first key). -/
def parseJsonFields : Nat → Str → Option (List (Str × Json) × Str)
  | 0, _ => none
  | fuel + 1, s =>
    match skipWs s with
    | c :: rest =>
      if c = dquote then
        match parseJsonStringBody (rest.length + 1) rest with
        | none => none
        | some (key, s2) =>
          match skipWs s2 with
          | ':' :: s3 =>
            match parseJsonValue fuel (skipWs s3) with
            | none => none
            | some (v, s4) =>
              match skipWs s4 with
              | ',' :: s5 => (parseJsonFields fuel s5).map (fun r => ((key, v) :: r.1, r.2))
              | d :: s5 => if d = rbrace then some ([(key, v)], s5) else none
              | [] => none
          | _ => none
      else none
    | [] => none

/-- Parse the elements of a JSON array (positioned at the first element). -/
def parseJsonElems : Nat → Str → Option (List Json × Str)
  | 0, _ => none
  | fuel + 1, s =>
    match parseJsonValue fuel (skipWs s) with
    | none => none
    | some (v, s2) =>
      match skipWs s2 with
      | ',' :: s3 => (parseJsonElems fuel s3).map (fun r => (v :: r.1, r.2))
      | ']' :: s3 => some ([v], s3)
      | _ => none

end

/-- Model of JSON.parse: parse a complete JSON document, requiring the
whole input to be consumed (returns none where JSON.parse throws). -/
def jsParse (s : Str) : Option Json :=
  match parseJsonValue (s.length + 1) (skipWs s) with
  | some (v, rest) => if (skipWs rest).isEmpty then some v else none
  | none => none

/-! The CSV module itself, translated from the source. -/

/-- Record produced per CSV row (interface CSVRow of the source; the
optional metadata field is always set by processRow, so it is a plain
string here). -/
structure CSVRow where
  name : Str
  content : Str
  type : Str
  metadata : Str
deriving Repr, DecidableEq

/-- Column-name constant "name". -/
def COLUMN_NAME : Str := "name".data

/-- Column-name constant "content". -/
def COLUMN_CONTENT : Str := "content".data

/-- Column-name constant "type". -/
def COLUMN_TYPE : Str := "type".data

/-- Column-name constant "metadata". -/
def COLUMN_METADATA : Str := "metadata".data

/-- Columns required to be present in the CSV header. -/
def REQUIRED_KEYS : List Str := [COLUMN_NAME, COLUMN_TYPE]

/-- Columns extracted separately and kept outside of content. -/
def KEYS_OUTSIDE_CONTENT : List Str := [COLUMN_NAME, COLUMN_TYPE, COLUMN_METADATA]

/-- Core scanner of parseCSVLine: left-to-right over the characters with
the in-quotes flag; a doubled quote inside a quoted field yields one
literal quote and consumes both characters; a comma outside quotes ends
the current field.  Fields are returned untrimmed (parseCSVLine trims
them), the running field accumulating at the head of the result.  In the
quoted state, a quote followed by a non-quote character d toggles the
state off and the scan continues at d; that continuation is unfolded one
step here (d cannot be a quote in that branch), keeping the recursion
structural. -/
def tokAux : Bool → List Char → List Str
  | _, [] => [[]]
  | true, c :: rest =>
      if c = dquote then
        match rest with
        | d :: rest2 =>
            if d = dquote then consHead dquote (tokAux true rest2)
            else if d = ',' then [] :: tokAux false rest2
            else consHead d (tokAux false rest2)
        | [] => [[]]
      else consHead c (tokAux true rest)
  | false, c :: rest =>
      if c = dquote then tokAux true rest
      else if c = ',' then [] :: tokAux false rest
      else consHead c (tokAux false rest)

/-- Model of parseCSVLine: split one line into fields honoring quoting,
each field trimmed (the source trims each field as it is pushed). -/
def parseCSVLine (line : Str) : List Str :=
  (tokAux false line).map trimStr

/-- Model of parseHeader: tokenize the header line, trim each column name
and drop empty ones; null when no column names remain. -/
def parseHeader (headerLine : Str) : Option (List Str) :=
  let columnNames := ((parseCSVLine headerLine).map trimStr).filter (fun col => !col.isEmpty)
  if columnNames.isEmpty then none else some columnNames

/-- Case-insensitive first-match column lookup (the findIndex pattern used
throughout the source; none models index -1). -/
def findColIdx (columnNames : List Str) (key : Str) : Option Nat :=
  columnNames.findIdx? (fun col => lowerStr col = lowerStr key)

/-- Model of findColumnIndices: map each present key to its first matching
index; absent keys are skipped.  The map is modelled as an association
list in key order (all resolved indices are distinct, so iteration order
of the number-keyed map is insertion order). -/
def findColumnIndices (columnNames : List Str) (keys : List Str) : List (Nat × Str) :=
  keys.filterMap (fun key => (findColIdx columnNames key).map (fun i => (i, key)))

/-- Model of validateRequiredKeys: resolve every required key or fail. -/
def collectKeyIdx (columnNames : List Str) : List Str → Option (List (Nat × Str))
  | [] => some []
  | key :: keys =>
    match findColIdx columnNames key with
    | none => none
    | some i => (collectKeyIdx columnNames keys).map (fun rest => (i, key) :: rest)

/-- Model of validateRequiredKeys: null when the identity or the type
column is missing from the header. -/
def validateRequiredKeys (columnNames : List Str) : Option (List (Nat × Str)) :=
  collectKeyIdx columnNames REQUIRED_KEYS

/-- Model of findContentColumnIndex (none models -1). -/
def findContentColumnIndex (columnNames : List Str) : Option Nat :=
  findColIdx columnNames COLUMN_CONTENT

/-- JavaScript truthiness of an optional string (undefined and the empty
string are falsy). -/
def truthy (o : Option Str) : Bool :=
  match o with
  | none => false
  | some s => !s.isEmpty

/-- Model of extractKeysOutsideContent: for each resolved outside-content
column, take the row cell at its index, trimmed; a missing cell
(row shorter than the index) yields no entry. -/
def extractKeysOutsideContent (values : List Str) (keysOutsideContentIndices : List (Nat × Str)) :
    List (Str × Str) :=
  keysOutsideContentIndices.filterMap
    (fun p => (values[p.1]?).map (fun v => (p.2, trimStr v)))

/-- Lookup in a string-keyed association list (Map.prototype.get). -/
def mapGet (m : List (Str × Str)) (k : Str) : Option Str :=
  (m.find? (fun p => p.1 = k)).map (fun p => p.2)

/-- Membership of a numeric key in the resolved index map (Map.has). -/
def hasIdx (m : List (Nat × Str)) (i : Nat) : Bool :=
  (m.find? (fun p => p.1 = i)).isSome

/-- One step of buildContent's column loop: fold column i into the content
object unless it is an outside-content column or the content column;
non-empty cell values are JSON-parsed, falling back to the raw string, and
stored under the uppercased column name. -/
def buildContentStep (values : List Str) (columnNames : List Str)
    (keysOutsideContentIndices : List (Nat × Str)) (contentColumnIndex : Option Nat)
    (contentObject : List (Str × Json)) (i : Nat) : List (Str × Json) :=
  if !hasIdx keysOutsideContentIndices i ∧ contentColumnIndex ≠ some i then
    match (values[i]?).map trimStr with
    | some value =>
      if !value.isEmpty then
        let upperKey := upperStr (columnNames[i]?.getD [])
        match jsParse value with
        | some parsedValue => jsonAssign contentObject upperKey parsedValue
        | none => jsonAssign contentObject upperKey (.str value)
      else contentObject
    | none => contentObject
  else contentObject

/-- Model of buildContent: fold the generic columns into a JSON object
(uppercased keys), then, when a content column exists and its cell is
truthy, merge its JSON-parsed value on top (plain objects merge key by
key via property assignment; any other parsed value, or an unparseable
string, is stored under the reserved key CONTENT); serialize the result. -/
def buildContent (values : List Str) (columnNames : List Str)
    (keysOutsideContentIndices : List (Nat × Str)) (contentColumnIndex : Option Nat) : Str :=
  let n := min columnNames.length values.length
  let base := (List.range n).foldl
    (buildContentStep values columnNames keysOutsideContentIndices contentColumnIndex) []
  let merged :=
    match contentColumnIndex with
    | none => base
    | some ci =>
      let contentColumnValue := (values[ci]?).map trimStr
      if truthy contentColumnValue then
        let v := contentColumnValue.getD []
        match jsParse v with
        | some (.obj fields) => fields.foldl (fun acc p => jsonAssign acc p.1 p.2) base
        | some j => jsonAssign base "CONTENT".data j
        | none => jsonAssign base "CONTENT".data (.str v)
      else base
  stringifyJson (.obj merged)

/-- Model of validateRowHasRequiredKeys: every required index must hold a
truthy (present, non-empty after trimming) cell. -/
def validateRowHasRequiredKeys (values : List Str) (requiredKeysIndices : List (Nat × Str)) :
    Bool :=
  requiredKeysIndices.all (fun p => truthy ((values[p.1]?).map trimStr))

/-- Model of processRow: reject blank lines and rows missing a required
value (thrown errors modelled as Except.error); otherwise build the
record, in passthrough mode (content cell carried verbatim) when a
metadata value was extracted and a content column exists, else in
plaintext mode via buildContent. -/
def processRow (line : Str) (columnNames : List Str) (requiredKeysIndices : List (Nat × Str))
    (keysOutsideContentIndices : List (Nat × Str)) (contentColumnIndex : Option Nat) :
    Except String CSVRow :=
  if (trimStr line).isEmpty then .error "Empty row found in the CSV file"
  else
    let values := parseCSVLine line
    if !validateRowHasRequiredKeys values requiredKeysIndices then
      .error "Required keys not found in the CSV row"
    else
      let keysOutsideContentValues := extractKeysOutsideContent values keysOutsideContentIndices
      let hasMetadata := (mapGet keysOutsideContentValues COLUMN_METADATA).isSome
      let finalContent :=
        match (if hasMetadata then contentColumnIndex else none) with
        | some ci => ((values[ci]?).map trimStr).getD []
        | none =>
            buildContent values columnNames keysOutsideContentIndices contentColumnIndex
      .ok
        { name := (mapGet keysOutsideContentValues COLUMN_NAME).getD []
          content := finalContent
          type := (mapGet keysOutsideContentValues COLUMN_TYPE).getD []
          metadata := (mapGet keysOutsideContentValues COLUMN_METADATA).getD [] }

/-- The per-row loop of parseCSV: each data line is processed, a thrown
row error is caught and logged and the row omitted (the source's
try/catch around processRow). -/
def importLoop (f : Str → Except String CSVRow) : List Str → List CSVRow → List CSVRow
  | [], acc => acc
  | line :: rest, acc =>
    match f line with
    | .ok row => importLoop f rest (acc ++ [row])
    | .error _ => importLoop f rest acc

/-- Model of parseCSV: trim the document, split into lines, require a
header plus at least one data line, resolve the schema (fatal errors
thrown), then run the row loop. -/
def parseCSV (csvText : Str) : Except String (List CSVRow) :=
  let lines := splitChar '\n' (trimStr csvText)
  if lines.length = 0 ∨ lines.length = 1 then .error "No lines found in the CSV file"
  else
    match parseHeader (lines.headD []) with
    | none => .error "No column names found in the CSV header"
    | some columnNames =>
      match validateRequiredKeys columnNames with
      | none => .error "Required keys not found in the CSV header"
      | some requiredKeysIndices =>
        let keysOutsideContentIndices := findColumnIndices columnNames KEYS_OUTSIDE_CONTENT
        let contentColumnIndex := findContentColumnIndex columnNames
        .ok (importLoop
          (fun line => processRow line columnNames requiredKeysIndices
            keysOutsideContentIndices contentColumnIndex)
          lines.tail [])

/-- Double every quote character (the replace of escapeCSVValue). -/
def doubleQuotes : Str → Str
  | [] => []
  | c :: rest => if c = dquote then dquote :: dquote :: doubleQuotes rest else c :: doubleQuotes rest

/-- Model of escapeCSVValue on string values: a value containing a comma,
a quote or a newline is wrapped in quotes with internal quotes doubled;
otherwise it is rendered unchanged. -/
def escapeCSVValue (value : Str) : Str :=
  if value.contains ',' || value.contains dquote || value.contains '\n' then
    dquote :: doubleQuotes value ++ [dquote]
  else value

/-- Model of generateCSV on string-valued rows: escape every field, join
fields with commas and rows with newlines, header row first. -/
def generateCSV (headers : List Str) (rows : List (List Str)) : Str :=
  joinWith '\n' ((headers :: rows).map (fun row => joinWith ',' (row.map escapeCSVValue)))

/-- Keys of a parsed JSON object (empty list for any other value). -/
def objKeys : Option Json → List Str
  | some (.obj fields) => fields.map (fun p => p.1)
  | _ => []

/-- Field of a Record selected by lowercased column name; used to state the
export-after-import round trip (a record is written back under the
document's own columns). -/
def recordField (r : CSVRow) (key : Str) : Str :=
  if key = COLUMN_NAME then r.name
  else if key = COLUMN_TYPE then r.type
  else if key = COLUMN_METADATA then r.metadata
  else if key = COLUMN_CONTENT then r.content
  else []

/-- Serialize imported Records back to CSV text over the given header
columns: one row per record, each cell being the record field named by the
column, case-insensitively. -/
def exportRecords (headers : List Str) (records : List CSVRow) : Str :=
  generateCSV headers
    (records.map (fun r => headers.map (fun h => recordField r (lowerStr h))))

/-! Tokenizer lemmas. -/

theorem consHead_cons (c : Char) (f : Str) (fs : List Str) :
    consHead c (f :: fs) = (c :: f) :: fs := rfl

theorem consAll_cons (a : Str) (f : Str) (fs : List Str) :
    consAll a (f :: fs) = (a ++ f) :: fs := by
  induction a with
  | nil => rfl
  | cons c rest ih =>
    show consHead c (consAll rest (f :: fs)) = ((c :: rest) ++ f) :: fs
    rw [ih]
    rfl

theorem contains_eq_false_iff (v : Str) (c : Char) : v.contains c = false ↔ c ∉ v := by
  have helem : v.contains c = true ↔ c ∈ v := List.elem_iff
  rw [← helem]
  simp

theorem tokAux_false_noQuote (l : Str) (h : ∀ c ∈ l, c ≠ dquote) :
    tokAux false l = splitChar ',' l := by
  induction l with
  | nil => rfl
  | cons c rest ih =>
    have hc : ¬(c = dquote) := h c (List.mem_cons_self ..)
    have hr := ih (fun x hx => h x (List.mem_cons_of_mem _ hx))
    by_cases hcomma : c = ','
    · subst hcomma
      simp [tokAux, splitChar, hr, show ¬(',' = dquote) by decide]
    · simp [tokAux, splitChar, hc, hcomma, hr]

theorem tokAux_false_plain (l : Str) (h : ∀ c ∈ l, c ≠ dquote ∧ c ≠ ',') :
    tokAux false l = [l] := by
  induction l with
  | nil => rfl
  | cons c rest ih =>
    have hc := h c (List.mem_cons_self ..)
    have hr := ih (fun x hx => h x (List.mem_cons_of_mem _ hx))
    simp [tokAux, hc.1, hc.2, hr, consHead]

theorem tokAux_true_cons (c : Char) (l : Str) (hc : ¬(c = dquote)) :
    tokAux true (c :: l) = consHead c (tokAux true l) := by
  cases l with
  | nil => simp [tokAux, hc]
  | cons d r => simp [tokAux, hc]

theorem tokAux_true_append (a rest : Str) (h : ∀ c ∈ a, c ≠ dquote) :
    tokAux true (a ++ rest) = consAll a (tokAux true rest) := by
  induction a with
  | nil => rfl
  | cons c t ih =>
    have hc : ¬(c = dquote) := h c (List.mem_cons_self ..)
    have ht := ih (fun x hx => h x (List.mem_cons_of_mem _ hx))
    show tokAux true (c :: (t ++ rest)) = consHead c (consAll t (tokAux true rest))
    rw [tokAux_true_cons c (t ++ rest) hc, ht]

theorem tokAux_true_doubleQuotes (v : Str) :
    tokAux true (doubleQuotes v ++ [dquote]) = [v] := by
  induction v with
  | nil => simp [doubleQuotes, tokAux]
  | cons c t ih =>
    by_cases hc : c = dquote
    · subst hc
      simp only [doubleQuotes, if_pos rfl, List.cons_append]
      simp [tokAux, ih, consHead]
    · simp only [doubleQuotes, if_neg hc, List.cons_append]
      rw [tokAux_true_cons c _ hc, ih]
      rfl

/-! Trimming lemmas. -/

theorem dropWhile_dropWhile_self (p : Char → Bool) (l : Str) :
    (l.dropWhile p).dropWhile p = l.dropWhile p := by
  induction l with
  | nil => rfl
  | cons c rest ih =>
    by_cases h : p c
    · simp [List.dropWhile_cons, h, ih]
    · simp [List.dropWhile_cons, h]

theorem dropWhile_head_false (p : Char → Bool) (l : Str) (c : Char) (t : Str)
    (h : l.dropWhile p = c :: t) : p c = false := by
  induction l with
  | nil => exact absurd h (by simp)
  | cons a rest ih =>
    by_cases ha : p a
    · exact ih (by simpa [List.dropWhile_cons, ha] using h)
    · have : a = c := by
        have := h
        simp [List.dropWhile_cons, ha] at this
        exact this.1
      subst this
      simpa using ha

theorem trimStr_prefix_dropWhile (l : Str) :
    trimStr l <+: l.dropWhile isJsWhitespace := by
  have hsuf : ((l.dropWhile isJsWhitespace).reverse.dropWhile isJsWhitespace)
      <:+ (l.dropWhile isJsWhitespace).reverse := List.dropWhile_suffix _
  have := (@List.reverse_suffix Char
    (((l.dropWhile isJsWhitespace).reverse.dropWhile isJsWhitespace).reverse)
    (l.dropWhile isJsWhitespace)).mp
  rw [List.reverse_reverse] at this
  exact this hsuf

theorem trimStr_front (l : Str) :
    (trimStr l).dropWhile isJsWhitespace = trimStr l := by
  cases htl : trimStr l with
  | nil => rfl
  | cons c t =>
    obtain ⟨u, hu⟩ := trimStr_prefix_dropWhile l
    rw [htl] at hu
    have hhead : isJsWhitespace c = false :=
      dropWhile_head_false isJsWhitespace l c (t ++ u) (by rw [← hu]; rfl)
    simp [List.dropWhile_cons, hhead]

theorem trimStr_back (l : Str) :
    (trimStr l).reverse.dropWhile isJsWhitespace = (trimStr l).reverse := by
  unfold trimStr
  simp only [List.reverse_reverse]
  exact dropWhile_dropWhile_self _ _

theorem trimStr_of_trimmed (l : Str) (h1 : l.dropWhile isJsWhitespace = l)
    (h2 : l.reverse.dropWhile isJsWhitespace = l.reverse) : trimStr l = l := by
  show (((l.dropWhile isJsWhitespace).reverse).dropWhile isJsWhitespace).reverse = l
  rw [h1, h2, List.reverse_reverse]

theorem trimStr_idem (l : Str) : trimStr (trimStr l) = trimStr l :=
  trimStr_of_trimmed _ (trimStr_front l) (trimStr_back l)

/-- Claim C5: the Tokenizer splits a line at commas outside quotes with
every field trimmed (stated against the independent comma splitter for
quote-free lines, which also gives the empty field between two consecutive
commas); a doubled quote inside a quoted field produces exactly one
literal quote character consuming both input characters (stated for a
quoted field with quote-free surroundings); and two consecutive commas
outside quotes yield an empty-string field, never a skipped field. -/
theorem parseCSVLine_tokenizes :
    (∀ l : Str, (∀ c ∈ l, c ≠ dquote) → parseCSVLine l = (splitChar ',' l).map trimStr) ∧
    (∀ a b : Str, (∀ c ∈ a, c ≠ dquote) → (∀ c ∈ b, c ≠ dquote) →
      parseCSVLine (dquote :: (a ++ (dquote :: dquote :: (b ++ [dquote])))) =
        [trimStr (a ++ dquote :: b)]) ∧
    parseCSVLine "a,,b".data = ["a".data, [], "b".data] := by
  refine ⟨?_, ?_, by decide⟩
  · intro l h
    unfold parseCSVLine
    rw [tokAux_false_noQuote l h]
  · intro a b ha hb
    unfold parseCSVLine
    have h1 : tokAux false (dquote :: (a ++ (dquote :: dquote :: (b ++ [dquote])))) =
        tokAux true (a ++ (dquote :: dquote :: (b ++ [dquote]))) := by simp [tokAux]
    have h2 := tokAux_true_append a (dquote :: dquote :: (b ++ [dquote])) ha
    have h3 : tokAux true (dquote :: dquote :: (b ++ [dquote])) =
        consHead dquote (tokAux true (b ++ [dquote])) := by simp [tokAux]
    have h4 := tokAux_true_append b [dquote] hb
    have h5 : tokAux true [dquote] = [[]] := by simp [tokAux]
    have h6 : consAll b [[]] = [b] := by
      have := consAll_cons b [] []
      simpa using this
    rw [h1, h2, h3, h4, h5, h6]
    show (consAll a [dquote :: b]).map trimStr = [trimStr (a ++ dquote :: b)]
    rw [consAll_cons a (dquote :: b) []]
    rfl

/-- Witness for parseCSVLine_tokenizes: the quote-free splitting applied to
a concrete line and the doubled-quote rule applied to a concrete quoted
field. -/
theorem parseCSVLine_tokenizes_witness :
    parseCSVLine "x, y,z".data = (splitChar ',' "x, y,z".data).map trimStr ∧
    parseCSVLine (dquote :: ("ab".data ++ (dquote :: dquote :: ("c,d".data ++ [dquote])))) =
      [trimStr ("ab".data ++ dquote :: "c,d".data)] :=
  ⟨parseCSVLine_tokenizes.1 "x, y,z".data (by decide),
   parseCSVLine_tokenizes.2.1 "ab".data "c,d".data (by decide) (by decide)⟩

/-- Claim C6: escaping then tokenizing is the identity on representable
values.  Every field the Tokenizer can produce is trim-fixed, and for
every trim-fixed string, tokenizing the line built from its escaped form
yields back exactly that string, so the Serializer's escaping is the exact
inverse of the Tokenizer's unescaping on representable values. -/
theorem escapeCSVValue_roundTrip :
    (∀ v : Str, trimStr v = v → parseCSVLine (escapeCSVValue v) = [v]) ∧
    (∀ l f, f ∈ parseCSVLine l → trimStr f = f) := by
  constructor
  · intro v hv
    unfold escapeCSVValue
    split
    next hs =>
      unfold parseCSVLine
      have h1 : tokAux false (dquote :: (doubleQuotes v ++ [dquote])) =
          tokAux true (doubleQuotes v ++ [dquote]) := by simp [tokAux]
      rw [List.cons_append, h1, tokAux_true_doubleQuotes]
      simp [hv]
    next hs =>
      simp only [Bool.or_eq_true, not_or, Bool.not_eq_true] at hs
      have hq : ∀ c ∈ v, c ≠ dquote ∧ c ≠ ',' := by
        intro c hc
        refine ⟨fun he => ?_, fun he => ?_⟩
        · exact (contains_eq_false_iff v dquote).mp hs.1.2 (he ▸ hc)
        · exact (contains_eq_false_iff v ',').mp hs.1.1 (he ▸ hc)
      unfold parseCSVLine
      rw [tokAux_false_plain v hq]
      simp [hv]
  · intro l f hf
    unfold parseCSVLine at hf
    obtain ⟨x, hx, rfl⟩ := List.mem_map.mp hf
    exact trimStr_idem x

/-- Witness for escapeCSVValue_roundTrip at the concrete value of the
claim: He said "hi", twice. -/
theorem escapeCSVValue_roundTrip_witness :
    trimStr "He said \"hi\", twice".data = "He said \"hi\", twice".data ∧
    parseCSVLine (escapeCSVValue "He said \"hi\", twice".data) =
      ["He said \"hi\", twice".data] :=
  ⟨by decide, escapeCSVValue_roundTrip.1 _ (by decide)⟩

/-! Import pipeline lemmas. -/

theorem importLoop_eq (f : Str → Except String CSVRow) (ls : List Str) (acc : List CSVRow) :
    importLoop f ls acc = acc ++ ls.filterMap (fun l => (f l).toOption) := by
  induction ls generalizing acc with
  | nil => simp [importLoop]
  | cons l rest ih =>
    cases hf : f l with
    | ok row => simp [importLoop, hf, ih, Except.toOption]
    | error e => simp [importLoop, hf, ih, Except.toOption]

theorem truthy_map_trim (values : List Str) (i : Nat) :
    truthy ((values[i]?).map trimStr) = true ↔ trimStr (values.getD i []) ≠ [] := by
  cases h : values[i]? with
  | none =>
    rw [List.getD_eq_getElem?_getD, h]
    simp [truthy, trimStr]
  | some v =>
    rw [List.getD_eq_getElem?_getD, h]
    simp [truthy, List.isEmpty_iff]

theorem validateRow_iff (values : List Str) (req : List (Nat × Str)) :
    validateRowHasRequiredKeys values req = true ↔
      ∀ p ∈ req, trimStr (values.getD p.1 []) ≠ [] := by
  unfold validateRowHasRequiredKeys
  rw [List.all_eq_true]
  constructor
  · intro h p hp
    exact (truthy_map_trim values p.1).mp (h p hp)
  · intro h p hp
    exact (truthy_map_trim values p.1).mpr (h p hp)

theorem validateRequiredKeys_some (cols : List Str) (req : List (Nat × Str))
    (h : validateRequiredKeys cols = some req) :
    ∃ i1 i2, findColIdx cols COLUMN_NAME = some i1 ∧ findColIdx cols COLUMN_TYPE = some i2 ∧
      req = [(i1, COLUMN_NAME), (i2, COLUMN_TYPE)] := by
  cases h1 : findColIdx cols COLUMN_NAME with
  | none => simp [validateRequiredKeys, collectKeyIdx, REQUIRED_KEYS, h1] at h
  | some i1 =>
    cases h2 : findColIdx cols COLUMN_TYPE with
    | none => simp [validateRequiredKeys, collectKeyIdx, REQUIRED_KEYS, h1, h2] at h
    | some i2 =>
      refine ⟨i1, i2, rfl, rfl, ?_⟩
      simp [validateRequiredKeys, collectKeyIdx, REQUIRED_KEYS, h1, h2] at h
      exact h.symm

theorem validateRequiredKeys_none (cols : List Str)
    (h : findColIdx cols COLUMN_NAME = none ∨ findColIdx cols COLUMN_TYPE = none) :
    validateRequiredKeys cols = none := by
  rcases h with h1 | h2
  · simp [validateRequiredKeys, collectKeyIdx, REQUIRED_KEYS, h1]
  · cases h1 : findColIdx cols COLUMN_NAME with
    | none => simp [validateRequiredKeys, collectKeyIdx, REQUIRED_KEYS, h1]
    | some i1 => simp [validateRequiredKeys, collectKeyIdx, REQUIRED_KEYS, h1, h2]

theorem processRow_isOk_iff (line : Str) (cols : List Str) (req out : List (Nat × Str))
    (ci : Option Nat) :
    (processRow line cols req out ci).isOk = true ↔
      (trimStr line ≠ [] ∧ ∀ p ∈ req, trimStr ((parseCSVLine line).getD p.1 []) ≠ []) := by
  unfold processRow
  by_cases hb : (trimStr line).isEmpty
  · rw [if_pos hb]
    simp [Except.isOk, Except.toBool, List.isEmpty_iff.mp hb]
  · rw [if_neg hb]
    by_cases hv : validateRowHasRequiredKeys (parseCSVLine line) req
    · have hcond : (!validateRowHasRequiredKeys (parseCSVLine line) req) = false := by simp [hv]
      simp only [hcond, Bool.false_eq_true, if_false]
      constructor
      · intro _
        exact ⟨fun he => hb (List.isEmpty_iff.mpr he), (validateRow_iff _ _).mp hv⟩
      · intro _
        rfl
    · simp only [Bool.not_eq_true] at hv
      have hcond : (!validateRowHasRequiredKeys (parseCSVLine line) req) = true := by simp [hv]
      simp only [hcond, if_true]
      constructor
      · intro habs
        simp [Except.isOk, Except.toBool] at habs
      · intro hrhs
        have := (validateRow_iff (parseCSVLine line) req).mpr hrhs.2
        rw [hv] at this
        cases this

theorem parseCSV_ok (csvText : Str) (cols : List Str) (req : List (Nat × Str))
    (hlen : 2 ≤ (splitChar '\n' (trimStr csvText)).length)
    (hhdr : parseHeader ((splitChar '\n' (trimStr csvText)).headD []) = some cols)
    (hreq : validateRequiredKeys cols = some req) :
    parseCSV csvText = .ok ((splitChar '\n' (trimStr csvText)).tail.filterMap
      (fun l => (processRow l cols req (findColumnIndices cols KEYS_OUTSIDE_CONTENT)
          (findContentColumnIndex cols)).toOption)) := by
  unfold parseCSV
  have hne : ¬((splitChar '\n' (trimStr csvText)).length = 0 ∨
      (splitChar '\n' (trimStr csvText)).length = 1) := by omega
  rw [if_neg hne]
  simp only [hhdr, hreq]
  rw [importLoop_eq]
  rfl

/-- Claim C3: a document whose header lacks a case-insensitive match for
the identity column or for the type column is rejected with a fatal error
and the importer returns zero records, with no partial import. -/
theorem import_rejects_missing_required_columns (csvText : Str)
    (h : ∀ cols, parseHeader ((splitChar '\n' (trimStr csvText)).headD []) = some cols →
      findColIdx cols COLUMN_NAME = none ∨ findColIdx cols COLUMN_TYPE = none) :
    ∃ msg, parseCSV csvText = .error msg := by
  unfold parseCSV
  by_cases hlen : ((splitChar '\n' (trimStr csvText)).length = 0 ∨
      (splitChar '\n' (trimStr csvText)).length = 1)
  · rw [if_pos hlen]
    exact ⟨_, rfl⟩
  · rw [if_neg hlen]
    cases hh : parseHeader ((splitChar '\n' (trimStr csvText)).headD []) with
    | none => exact ⟨_, rfl⟩
    | some cols =>
      have hv : validateRequiredKeys cols = none := validateRequiredKeys_none cols (h cols hh)
      simp only [hv]
      exact ⟨_, rfl⟩

/-- Witness for import_rejects_missing_required_columns: a header with
neither a name nor a type column. -/
theorem import_rejects_missing_required_columns_witness :
    ∃ msg, parseCSV "foo,bar\nx,y".data = .error msg :=
  import_rejects_missing_required_columns "foo,bar\nx,y".data (fun cols h => by
    have e : parseHeader ((splitChar '\n' (trimStr "foo,bar\nx,y".data)).headD []) =
        some ["foo".data, "bar".data] := by decide
    rw [e] at h
    cases h
    exact Or.inl (by decide))

/-- Claim C4: for a document with a valid header, import never throws for a
row-level problem: the result is ok and consists exactly of the records of
the materializing rows, in input order (filterMap preserves relative
order); and a data row materializes exactly when it is non-blank and has a
non-empty trimmed value at every required index, so blank rows and rows
missing a required value are the ones omitted. -/
theorem import_skips_invalid_rows_in_order (csvText : Str) (cols : List Str)
    (req : List (Nat × Str))
    (hlen : 2 ≤ (splitChar '\n' (trimStr csvText)).length)
    (hhdr : parseHeader ((splitChar '\n' (trimStr csvText)).headD []) = some cols)
    (hreq : validateRequiredKeys cols = some req) :
    parseCSV csvText = .ok ((splitChar '\n' (trimStr csvText)).tail.filterMap
      (fun l => (processRow l cols req (findColumnIndices cols KEYS_OUTSIDE_CONTENT)
          (findContentColumnIndex cols)).toOption)) ∧
    ∀ l ∈ (splitChar '\n' (trimStr csvText)).tail,
      ((processRow l cols req (findColumnIndices cols KEYS_OUTSIDE_CONTENT)
          (findContentColumnIndex cols)).isOk = true ↔
        (trimStr l ≠ [] ∧ ∀ p ∈ req, trimStr ((parseCSVLine l).getD p.1 []) ≠ [])) :=
  ⟨parseCSV_ok csvText cols req hlen hhdr hreq,
   fun l _ => processRow_isOk_iff l cols req _ _⟩

/-- Witness for import_skips_invalid_rows_in_order: a document whose second
data row misses the required name value is imported to exactly the other
two rows, in order. -/
theorem import_skips_invalid_rows_in_order_witness :
    parseCSV "name,type\na,b\n,c\nd,e".data =
      .ok [{ name := "a".data, content := [lbrace, rbrace], type := "b".data, metadata := [] },
           { name := "d".data, content := [lbrace, rbrace], type := "e".data, metadata := [] }] :=
  ((import_skips_invalid_rows_in_order "name,type\na,b\n,c\nd,e".data
      ["name".data, "type".data] [(0, COLUMN_NAME), (1, COLUMN_TYPE)]
      (by decide) (by decide) (by decide)).1).trans (by rfl)

/-- A truthy optional trimmed cell is a present cell with non-empty trim. -/
theorem truthy_map_some (values : List Str) (i : Nat)
    (h : truthy ((values[i]?).map trimStr) = true) :
    ∃ v, values[i]? = some v ∧ trimStr v ≠ [] := by
  cases hv : values[i]? with
  | none =>
    rw [hv] at h
    simp [truthy] at h
  | some v =>
    refine ⟨v, rfl, ?_⟩
    rw [hv] at h
    simp [truthy, List.isEmpty_iff] at h
    exact h

/-- A record successfully materialized by processRow under a schema whose
required indices are the name and type columns (heading the
outside-content index list, as resolution produces) has non-empty name
and type fields. -/
theorem processRow_ok_fields (line : Str) (cols : List Str) (i1 i2 : Nat)
    (rest : List (Nat × Str)) (ci : Option Nat) (r : CSVRow)
    (hok : processRow line cols [(i1, COLUMN_NAME), (i2, COLUMN_TYPE)]
      ((i1, COLUMN_NAME) :: (i2, COLUMN_TYPE) :: rest) ci = .ok r) :
    r.name ≠ [] ∧ r.type ≠ [] := by
  unfold processRow at hok
  by_cases hb : (trimStr line).isEmpty
  · rw [if_pos hb] at hok
    cases hok
  · rw [if_neg hb] at hok
    by_cases hval : validateRowHasRequiredKeys (parseCSVLine line)
        [(i1, COLUMN_NAME), (i2, COLUMN_TYPE)]
    · have hcond : (!validateRowHasRequiredKeys (parseCSVLine line)
          [(i1, COLUMN_NAME), (i2, COLUMN_TYPE)]) = false := by simp [hval]
      simp only [hcond, Bool.false_eq_true, if_false] at hok
      have hall := List.all_eq_true.mp hval
      obtain ⟨v1, hv1, hv1ne⟩ := truthy_map_some (parseCSVLine line) i1
        (hall (i1, COLUMN_NAME) (by simp))
      obtain ⟨v2, hv2, hv2ne⟩ := truthy_map_some (parseCSVLine line) i2
        (hall (i2, COLUMN_TYPE) (by simp))
      have hextract : extractKeysOutsideContent (parseCSVLine line)
          ((i1, COLUMN_NAME) :: (i2, COLUMN_TYPE) :: rest) =
          (COLUMN_NAME, trimStr v1) :: (COLUMN_TYPE, trimStr v2) ::
            extractKeysOutsideContent (parseCSVLine line) rest := by
        simp [extractKeysOutsideContent, List.filterMap_cons, hv1, hv2]
      rw [hextract] at hok
      have hname : mapGet ((COLUMN_NAME, trimStr v1) :: (COLUMN_TYPE, trimStr v2) ::
          extractKeysOutsideContent (parseCSVLine line) rest) COLUMN_NAME =
          some (trimStr v1) := by
        simp [mapGet, List.find?]
      have htype : mapGet ((COLUMN_NAME, trimStr v1) :: (COLUMN_TYPE, trimStr v2) ::
          extractKeysOutsideContent (parseCSVLine line) rest) COLUMN_TYPE =
          some (trimStr v2) := by
        simp [mapGet, List.find?, show ¬(COLUMN_NAME = COLUMN_TYPE) by decide]
      rw [hname, htype] at hok
      have hrec := Except.ok.inj hok
      rw [← hrec]
      exact ⟨hv1ne, hv2ne⟩
    · have hcond : (!validateRowHasRequiredKeys (parseCSVLine line)
          [(i1, COLUMN_NAME), (i2, COLUMN_TYPE)]) = true := by
        simp only [Bool.not_eq_true] at hval
        simp [hval]
      simp only [hcond, if_true] at hok
      cases hok

/-- Claim C8: every Record returned by import has a non-empty identity
(name) field and a non-empty type field. -/
theorem import_records_nonempty_identity_type (csvText : Str) (rs : List CSVRow)
    (h : parseCSV csvText = .ok rs) : ∀ r ∈ rs, r.name ≠ [] ∧ r.type ≠ [] := by
  intro r hr
  unfold parseCSV at h
  by_cases hlen : ((splitChar '\n' (trimStr csvText)).length = 0 ∨
      (splitChar '\n' (trimStr csvText)).length = 1)
  · rw [if_pos hlen] at h
    cases h
  · rw [if_neg hlen] at h
    cases hhdr : parseHeader ((splitChar '\n' (trimStr csvText)).headD []) with
    | none =>
      simp only [hhdr] at h
      cases h
    | some cols =>
      simp only [hhdr] at h
      cases hreq : validateRequiredKeys cols with
      | none =>
        simp only [hreq] at h
        cases h
      | some req =>
        simp only [hreq, importLoop_eq, List.nil_append] at h
        obtain ⟨i1, i2, h1, h2, hreqeq⟩ := validateRequiredKeys_some cols req hreq
        have hrs := Except.ok.inj h
        rw [← hrs] at hr
        obtain ⟨l, _, hl⟩ := List.mem_filterMap.mp hr
        have hout : findColumnIndices cols KEYS_OUTSIDE_CONTENT =
            (i1, COLUMN_NAME) :: (i2, COLUMN_TYPE) ::
              (KEYS_OUTSIDE_CONTENT.drop 2).filterMap
                (fun key => (findColIdx cols key).map (fun i => (i, key))) := by
          simp [findColumnIndices, KEYS_OUTSIDE_CONTENT, List.filterMap_cons, h1, h2]
        have hok : processRow l cols req (findColumnIndices cols KEYS_OUTSIDE_CONTENT)
            (findContentColumnIndex cols) = .ok r := by
          cases hpr : processRow l cols req (findColumnIndices cols KEYS_OUTSIDE_CONTENT)
              (findContentColumnIndex cols) with
          | ok row =>
            rw [hpr] at hl
            simp [Except.toOption] at hl
            rw [hl]
          | error e =>
            rw [hpr] at hl
            simp [Except.toOption] at hl
        rw [hreqeq, hout] at hok
        exact processRow_ok_fields l cols i1 i2 _ _ r hok

/-- Witness for import_records_nonempty_identity_type at a concrete
document and its single imported record. -/
theorem import_records_nonempty_identity_type_witness :
    ({ name := "a".data, content := [lbrace, rbrace], type := "b".data,
       metadata := [] } : CSVRow).name ≠ [] ∧
    ({ name := "a".data, content := [lbrace, rbrace], type := "b".data,
       metadata := [] } : CSVRow).type ≠ [] :=
  import_records_nonempty_identity_type "name,type\na,b".data
    [{ name := "a".data, content := [lbrace, rbrace], type := "b".data, metadata := [] }]
    (by rfl) _ (by simp)

theorem isEmpty_false_of_ne {α : Type} (l : List α) (h : l ≠ []) : l.isEmpty = false := by
  cases l with
  | nil => exact absurd rfl h
  | cons a t => rfl

theorem trim_getD_eq (values : List Str) (i : Nat) :
    (((values[i]?).map trimStr).getD []) = trimStr (values.getD i []) := by
  cases h : values[i]? with
  | none =>
    rw [List.getD_eq_getElem?_getD, h]
    rfl
  | some v =>
    rw [List.getD_eq_getElem?_getD, h]
    rfl

/-- Evaluation of processRow for a row with truthy required cells, under a
schema that resolved the name, type and metadata columns: the result is ok,
with passthrough content exactly when the row has a cell at the metadata
index and a content column exists. -/
theorem processRow_eval_meta (line : Str) (cols : List Str) (i1 i2 mi : Nat) (ci : Option Nat)
    (v1 v2 : Str) (hb : trimStr line ≠ [])
    (hv1 : (parseCSVLine line)[i1]? = some v1) (hv1ne : trimStr v1 ≠ [])
    (hv2 : (parseCSVLine line)[i2]? = some v2) (hv2ne : trimStr v2 ≠ []) :
    processRow line cols [(i1, COLUMN_NAME), (i2, COLUMN_TYPE)]
      [(i1, COLUMN_NAME), (i2, COLUMN_TYPE), (mi, COLUMN_METADATA)] ci =
    .ok { name := trimStr v1
          content :=
            match (parseCSVLine line)[mi]? with
            | some _ =>
                match ci with
                | some c => (((parseCSVLine line)[c]?).map trimStr).getD []
                | none => buildContent (parseCSVLine line) cols
                    [(i1, COLUMN_NAME), (i2, COLUMN_TYPE), (mi, COLUMN_METADATA)] ci
            | none => buildContent (parseCSVLine line) cols
                [(i1, COLUMN_NAME), (i2, COLUMN_TYPE), (mi, COLUMN_METADATA)] ci
          type := trimStr v2
          metadata :=
            match (parseCSVLine line)[mi]? with
            | some m => trimStr m
            | none => [] } := by
  unfold processRow
  rw [if_neg (fun h => hb (List.isEmpty_iff.mp h))]
  have hval : validateRowHasRequiredKeys (parseCSVLine line)
      [(i1, COLUMN_NAME), (i2, COLUMN_TYPE)] = true := by
    simp [validateRowHasRequiredKeys, hv1, hv2, truthy,
      isEmpty_false_of_ne _ hv1ne, isEmpty_false_of_ne _ hv2ne]
  have hcond : (!validateRowHasRequiredKeys (parseCSVLine line)
      [(i1, COLUMN_NAME), (i2, COLUMN_TYPE)]) = false := by simp [hval]
  simp only [hcond, Bool.false_eq_true, if_false]
  cases hm : (parseCSVLine line)[mi]? with
  | some m =>
    have hextract : extractKeysOutsideContent (parseCSVLine line)
        [(i1, COLUMN_NAME), (i2, COLUMN_TYPE), (mi, COLUMN_METADATA)] =
        [(COLUMN_NAME, trimStr v1), (COLUMN_TYPE, trimStr v2), (COLUMN_METADATA, trimStr m)] := by
      simp [extractKeysOutsideContent, List.filterMap_cons, hv1, hv2, hm]
    rw [hextract]
    have hgn : mapGet [(COLUMN_NAME, trimStr v1), (COLUMN_TYPE, trimStr v2),
        (COLUMN_METADATA, trimStr m)] COLUMN_NAME = some (trimStr v1) := by
      simp [mapGet, List.find?]
    have hgt : mapGet [(COLUMN_NAME, trimStr v1), (COLUMN_TYPE, trimStr v2),
        (COLUMN_METADATA, trimStr m)] COLUMN_TYPE = some (trimStr v2) := by
      simp [mapGet, List.find?, show ¬(COLUMN_NAME = COLUMN_TYPE) by decide]
    have hgm : mapGet [(COLUMN_NAME, trimStr v1), (COLUMN_TYPE, trimStr v2),
        (COLUMN_METADATA, trimStr m)] COLUMN_METADATA = some (trimStr m) := by
      simp [mapGet, List.find?, show ¬(COLUMN_NAME = COLUMN_METADATA) by decide,
        show ¬(COLUMN_TYPE = COLUMN_METADATA) by decide]
    rw [hgn, hgt, hgm]
    rfl
  | none =>
    have hextract : extractKeysOutsideContent (parseCSVLine line)
        [(i1, COLUMN_NAME), (i2, COLUMN_TYPE), (mi, COLUMN_METADATA)] =
        [(COLUMN_NAME, trimStr v1), (COLUMN_TYPE, trimStr v2)] := by
      simp [extractKeysOutsideContent, List.filterMap_cons, hv1, hv2, hm]
    rw [hextract]
    have hgn : mapGet [(COLUMN_NAME, trimStr v1), (COLUMN_TYPE, trimStr v2)] COLUMN_NAME =
        some (trimStr v1) := by
      simp [mapGet, List.find?]
    have hgt : mapGet [(COLUMN_NAME, trimStr v1), (COLUMN_TYPE, trimStr v2)] COLUMN_TYPE =
        some (trimStr v2) := by
      simp [mapGet, List.find?, show ¬(COLUMN_NAME = COLUMN_TYPE) by decide]
    have hgm : mapGet [(COLUMN_NAME, trimStr v1), (COLUMN_TYPE, trimStr v2)] COLUMN_METADATA =
        none := by
      simp [mapGet, List.find?, show ¬(COLUMN_NAME = COLUMN_METADATA) by decide,
        show ¬(COLUMN_TYPE = COLUMN_METADATA) by decide]
    rw [hgn, hgt, hgm]
    rfl

/-- Claim C2: passthrough mode.  For a document whose resolved schema has
both a metadata column and a content column, every successfully
materialized row that has a cell at the metadata index (so a metadata
value was extracted) yields a Record, appearing in the import result,
whose content is exactly the trimmed content cell string, with no JSON
parsing or re-serialization applied. -/
theorem passthrough_content_verbatim (csvText : Str) (cols : List Str) (req : List (Nat × Str))
    (rs : List CSVRow) (mi ci : Nat) (l : Str) (r : CSVRow)
    (hhdr : parseHeader ((splitChar '\n' (trimStr csvText)).headD []) = some cols)
    (hreq : validateRequiredKeys cols = some req)
    (hmeta : findColIdx cols COLUMN_METADATA = some mi)
    (hci : findContentColumnIndex cols = some ci)
    (hdoc : parseCSV csvText = .ok rs)
    (hline : l ∈ (splitChar '\n' (trimStr csvText)).tail)
    (hok : processRow l cols req (findColumnIndices cols KEYS_OUTSIDE_CONTENT)
      (findContentColumnIndex cols) = .ok r)
    (hcell : mi < (parseCSVLine l).length) :
    r ∈ rs ∧ r.content = trimStr ((parseCSVLine l).getD ci []) := by
  have hlen : 2 ≤ (splitChar '\n' (trimStr csvText)).length := by
    by_contra hlt
    have hor : ((splitChar '\n' (trimStr csvText)).length = 0 ∨
        (splitChar '\n' (trimStr csvText)).length = 1) := by omega
    unfold parseCSV at hdoc
    rw [if_pos hor] at hdoc
    cases hdoc
  rw [parseCSV_ok csvText cols req hlen hhdr hreq] at hdoc
  have hrs := Except.ok.inj hdoc
  constructor
  · rw [← hrs]
    exact List.mem_filterMap.mpr ⟨l, hline, by rw [hok]; rfl⟩
  · obtain ⟨i1, i2, h1, h2, hreqeq⟩ := validateRequiredKeys_some cols req hreq
    have hout : findColumnIndices cols KEYS_OUTSIDE_CONTENT =
        [(i1, COLUMN_NAME), (i2, COLUMN_TYPE), (mi, COLUMN_METADATA)] := by
      simp [findColumnIndices, KEYS_OUTSIDE_CONTENT, List.filterMap_cons, h1, h2, hmeta]
    have hokb : (processRow l cols req (findColumnIndices cols KEYS_OUTSIDE_CONTENT)
        (findContentColumnIndex cols)).isOk = true := by rw [hok]; rfl
    obtain ⟨hb, hvals⟩ := (processRow_isOk_iff l cols req _ _).mp hokb
    have hv1' := hvals (i1, COLUMN_NAME) (by rw [hreqeq]; simp)
    have hv2' := hvals (i2, COLUMN_TYPE) (by rw [hreqeq]; simp)
    obtain ⟨v1, hv1, hv1ne⟩ : ∃ v, (parseCSVLine l)[i1]? = some v ∧ trimStr v ≠ [] := by
      cases hc : (parseCSVLine l)[i1]? with
      | none =>
        rw [List.getD_eq_getElem?_getD, hc] at hv1'
        exact absurd rfl hv1'
      | some v =>
        rw [List.getD_eq_getElem?_getD, hc] at hv1'
        exact ⟨v, rfl, hv1'⟩
    obtain ⟨v2, hv2, hv2ne⟩ : ∃ v, (parseCSVLine l)[i2]? = some v ∧ trimStr v ≠ [] := by
      cases hc : (parseCSVLine l)[i2]? with
      | none =>
        rw [List.getD_eq_getElem?_getD, hc] at hv2'
        exact absurd rfl hv2'
      | some v =>
        rw [List.getD_eq_getElem?_getD, hc] at hv2'
        exact ⟨v, rfl, hv2'⟩
    rw [hreqeq, hout,
      processRow_eval_meta l cols i1 i2 mi (findContentColumnIndex cols) v1 v2
        hb hv1 hv1ne hv2 hv2ne] at hok
    have hrec := Except.ok.inj hok
    rw [← hrec]
    simp only [List.getElem?_eq_getElem hcell, hci]
    exact trim_getD_eq (parseCSVLine l) ci

/-- Witness for passthrough_content_verbatim at a concrete document with a
metadata column: the content cell is carried through verbatim. -/
theorem passthrough_content_verbatim_witness :
    ({ name := "n".data, content := "payload".data, type := "t".data,
       metadata := "m".data } : CSVRow) ∈
      [({ name := "n".data, content := "payload".data, type := "t".data,
          metadata := "m".data } : CSVRow)] ∧
    ({ name := "n".data, content := "payload".data, type := "t".data,
       metadata := "m".data } : CSVRow).content =
      trimStr ((parseCSVLine "n,t,payload,m".data).getD 2 []) :=
  passthrough_content_verbatim "name,type,content,metadata\nn,t,payload,m".data
    ["name".data, "type".data, "content".data, "metadata".data]
    [(0, COLUMN_NAME), (1, COLUMN_TYPE)]
    [{ name := "n".data, content := "payload".data, type := "t".data, metadata := "m".data }]
    3 2 "n,t,payload,m".data
    { name := "n".data, content := "payload".data, type := "t".data, metadata := "m".data }
    (by decide) (by decide) (by decide) (by decide) (by rfl) (by decide) (by rfl) (by decide)

/-- Claim C9: with both the metadata and the content column resolved, a row
whose metadata cell is present but empty after trimming is still
materialized in passthrough mode — its content is the trimmed content cell
and its metadata field is the empty string — while a row with no cell at
the metadata index at all is materialized in plaintext mode (content built
by buildContent). -/
theorem empty_metadata_cell_selects_passthrough (line : Str) (cols : List Str)
    (i1 i2 mi ci : Nat) (v1 v2 : Str)
    (hname : findColIdx cols COLUMN_NAME = some i1)
    (htype : findColIdx cols COLUMN_TYPE = some i2)
    (hmeta : findColIdx cols COLUMN_METADATA = some mi)
    (hci : findContentColumnIndex cols = some ci)
    (hb : trimStr line ≠ [])
    (hv1 : (parseCSVLine line)[i1]? = some v1) (hv1ne : trimStr v1 ≠ [])
    (hv2 : (parseCSVLine line)[i2]? = some v2) (hv2ne : trimStr v2 ≠ []) :
    ∀ req, validateRequiredKeys cols = some req →
      ((∀ cell, (parseCSVLine line)[mi]? = some cell → trimStr cell = [] →
        processRow line cols req (findColumnIndices cols KEYS_OUTSIDE_CONTENT)
          (findContentColumnIndex cols) =
        .ok { name := trimStr v1
              content := trimStr ((parseCSVLine line).getD ci [])
              type := trimStr v2
              metadata := [] }) ∧
      ((parseCSVLine line)[mi]? = none →
        processRow line cols req (findColumnIndices cols KEYS_OUTSIDE_CONTENT)
          (findContentColumnIndex cols) =
        .ok { name := trimStr v1
              content := buildContent (parseCSVLine line) cols
                (findColumnIndices cols KEYS_OUTSIDE_CONTENT) (findContentColumnIndex cols)
              type := trimStr v2
              metadata := [] })) := by
  intro req hreq
  obtain ⟨i1', i2', h1, h2, hreqeq⟩ := validateRequiredKeys_some cols req hreq
  have e1 : i1' = i1 := Option.some.inj (h1.symm.trans hname)
  have e2 : i2' = i2 := Option.some.inj (h2.symm.trans htype)
  rw [e1, e2] at hreqeq
  have hout : findColumnIndices cols KEYS_OUTSIDE_CONTENT =
      [(i1, COLUMN_NAME), (i2, COLUMN_TYPE), (mi, COLUMN_METADATA)] := by
    simp [findColumnIndices, KEYS_OUTSIDE_CONTENT, List.filterMap_cons, hname, htype, hmeta]
  have heval := processRow_eval_meta line cols i1 i2 mi (findContentColumnIndex cols) v1 v2
    hb hv1 hv1ne hv2 hv2ne
  constructor
  · intro cell hcellEq hcellTrim
    rw [hreqeq, hout, heval]
    simp [hcellEq, hci, hcellTrim, trim_getD_eq]
  · intro hm
    rw [hreqeq, hout, heval]
    simp [hm, hout]

/-- Witness for empty_metadata_cell_selects_passthrough: a row whose
metadata cell is the empty string is still materialized in passthrough
mode, with empty metadata and the raw content cell as content. -/
theorem empty_metadata_cell_selects_passthrough_witness :
    processRow "n,t,payload,".data
      ["name".data, "type".data, "content".data, "metadata".data]
      [(0, COLUMN_NAME), (1, COLUMN_TYPE)]
      (findColumnIndices ["name".data, "type".data, "content".data, "metadata".data]
        KEYS_OUTSIDE_CONTENT)
      (findContentColumnIndex ["name".data, "type".data, "content".data, "metadata".data]) =
    .ok { name := "n".data, content := "payload".data, type := "t".data, metadata := [] } :=
  (((empty_metadata_cell_selects_passthrough "n,t,payload,".data
      ["name".data, "type".data, "content".data, "metadata".data]
      0 1 3 2 "n".data "t".data
      (by decide) (by decide) (by decide) (by decide) (by decide)
      (by rfl) (by decide) (by rfl) (by decide)
      [(0, COLUMN_NAME), (1, COLUMN_TYPE)] (by decide)).1
    [] (by rfl) (by rfl)).trans (by rfl))

/-- Claim C1 counterexample: the claim asserts that every key of the
resulting payload is uppercased, including keys merged from the content
column's JSON object, and that the Grid Bot example yields content with
key SYMBOL.  On the code, the content-column object is merged with its
keys verbatim: the b-example payload is \x7b"B":2,"a":1\x7d, whose parsed
keys include "a" and not "A", and the Grid Bot example yields content
\x7b"symbol":"BTC/USDT"\x7d, not \x7b"SYMBOL":"BTC/USDT"\x7d. -/
theorem plaintextMerge_uppercase_counterexample :
    parseCSV "name,type,content,b\nx,execute,\"\x7b\"\"a\"\":1\x7d\",2".data =
      .ok [{ name := "x".data, content := "\x7b\"B\":2,\"a\":1\x7d".data,
             type := "execute".data, metadata := [] }] ∧
    (objKeys (jsParse "\x7b\"B\":2,\"a\":1\x7d".data)).contains "A".data = false ∧
    (objKeys (jsParse "\x7b\"B\":2,\"a\":1\x7d".data)).contains "a".data = true ∧
    parseCSV
      "name,type,content\n\"Grid Bot\",execute_actions,\"\x7b\"\"symbol\"\":\"\"BTC/USDT\"\"\x7d\"".data =
      .ok [{ name := "Grid Bot".data, content := "\x7b\"symbol\":\"BTC/USDT\"\x7d".data,
             type := "execute_actions".data, metadata := [] }] ∧
    ("\x7b\"symbol\":\"BTC/USDT\"\x7d".data : Str) ≠ "\x7b\"SYMBOL\":\"BTC/USDT\"\x7d".data ∧
    (objKeys (jsParse "\x7b\"symbol\":\"BTC/USDT\"\x7d".data)).contains "SYMBOL".data = false :=
  ⟨rfl, rfl, rfl, rfl, by decide, rfl⟩

/-- Claim C1 amended: generic extra columns are folded in under uppercased
keys, but the content-column JSON object is merged with its keys kept
verbatim (content-column values still win on exact-key collision); so the
b-example produces the payload \x7b"B":2,"a":1\x7d and the Grid Bot
example produces content \x7b"symbol":"BTC/USDT"\x7d with its key in the
original lowercase. -/
theorem plaintextMerge_content_keys_verbatim :
    parseCSV "name,type,content,b\nx,execute,\"\x7b\"\"a\"\":1\x7d\",2".data =
      .ok [{ name := "x".data, content := "\x7b\"B\":2,\"a\":1\x7d".data,
             type := "execute".data, metadata := [] }] ∧
    jsParse "\x7b\"B\":2,\"a\":1\x7d".data =
      some (.obj [("B".data, .num "2".data), ("a".data, .num "1".data)]) ∧
    parseCSV
      "name,type,content\n\"Grid Bot\",execute_actions,\"\x7b\"\"symbol\"\":\"\"BTC/USDT\"\"\x7d\"".data =
      .ok [{ name := "Grid Bot".data, content := "\x7b\"symbol\":\"BTC/USDT\"\x7d".data,
             type := "execute_actions".data, metadata := [] }] ∧
    jsParse "\x7b\"symbol\":\"BTC/USDT\"\x7d".data =
      some (.obj [("symbol".data, .str "BTC/USDT".data)]) :=
  ⟨rfl, rfl, rfl, rfl⟩

/-- Claim C10: when the header contains an empty field before a named
column, role indices are resolved against the header with empty names
removed while data cells keep their positions, so extraction reads shifted
cells: for header a,,name,type and row v,w,n,t the identity field is the
row's second cell w, not n (and the type field is likewise shifted to n). -/
theorem header_empty_field_shifts_indices :
    parseCSV "a,,name,type\nv,w,n,t".data =
      .ok [{ name := "w".data, content := "\x7b\"A\":\"v\"\x7d".data,
             type := "n".data, metadata := [] }] ∧
    ("w".data : Str) ≠ "n".data :=
  ⟨rfl, by decide⟩

/-! Lemmas for the export round trip. -/

theorem findIdx?_go_spec {α : Type} (p : α → Bool) (l : List α) (s i : Nat)
    (h : List.findIdx? p l s = some i) :
    s ≤ i ∧ ∃ a, l[i - s]? = some a ∧ p a = true := by
  induction l generalizing s with
  | nil => simp [List.findIdx?] at h
  | cons a rest ih =>
    rw [List.findIdx?_cons] at h
    by_cases hp : p a = true
    · rw [if_pos hp] at h
      cases h
      exact ⟨Nat.le_refl _, a, by simp, hp⟩
    · rw [if_neg hp] at h
      obtain ⟨hle, x, hx, hpx⟩ := ih (s + 1) h
      refine ⟨by omega, x, ?_, hpx⟩
      have he : i - s = (i - (s + 1)) + 1 := by omega
      rw [he]
      simpa using hx

theorem findIdx?_spec {α : Type} (p : α → Bool) (l : List α) (i : Nat)
    (h : List.findIdx? p l = some i) : ∃ a, l[i]? = some a ∧ p a = true := by
  have := findIdx?_go_spec p l 0 i h
  simpa using this.2

theorem mem_joinWith (sep : Char) (parts : List Str) (c : Char)
    (h : c ∈ joinWith sep parts) : c = sep ∨ ∃ p ∈ parts, c ∈ p := by
  induction parts with
  | nil => simp [joinWith] at h
  | cons p rest ih =>
    cases rest with
    | nil =>
      simp only [joinWith] at h
      exact Or.inr ⟨p, by simp, h⟩
    | cons q rest2 =>
      simp only [joinWith, List.mem_append, List.mem_cons] at h
      rcases h with hp | hsep | hrest
      · exact Or.inr ⟨p, by simp, hp⟩
      · exact Or.inl hsep
      · rcases ih hrest with hs | ⟨x, hx, hcx⟩
        · exact Or.inl hs
        · exact Or.inr ⟨x, List.mem_cons_of_mem _ hx, hcx⟩

theorem splitChar_no_sep (sep : Char) (p : Str) (h : sep ∉ p) :
    splitChar sep p = [p] := by
  induction p with
  | nil => rfl
  | cons c rest ih =>
    have hc : ¬(c = sep) := fun he => h (he ▸ List.mem_cons_self ..)
    have hr := ih (fun hm => h (List.mem_cons_of_mem _ hm))
    simp [splitChar, hc, hr, consHead]

theorem splitChar_sep_append (sep : Char) (p t : Str) (h : sep ∉ p) :
    splitChar sep (p ++ sep :: t) = p :: splitChar sep t := by
  induction p with
  | nil => simp [splitChar]
  | cons c rest ih =>
    have hc : ¬(c = sep) := fun he => h (he ▸ List.mem_cons_self ..)
    have hr := ih (fun hm => h (List.mem_cons_of_mem _ hm))
    simp [splitChar, hc, hr, consHead]

theorem splitChar_joinWith (sep : Char) (parts : List Str) (hne : parts ≠ [])
    (h : ∀ p ∈ parts, sep ∉ p) :
    splitChar sep (joinWith sep parts) = parts := by
  induction parts with
  | nil => exact absurd rfl hne
  | cons p rest ih =>
    cases rest with
    | nil =>
      show splitChar sep p = [p]
      exact splitChar_no_sep sep p (h p (List.mem_cons_self ..))
    | cons q rest2 =>
      show splitChar sep (p ++ sep :: joinWith sep (q :: rest2)) = p :: q :: rest2
      rw [splitChar_sep_append sep p _ (h p (List.mem_cons_self ..))]
      rw [ih (by simp) (fun x hx => h x (List.mem_cons_of_mem _ hx))]

theorem dropWhile_eq_self_head (p : Char → Bool) (l : Str) (c : Char)
    (hself : l.dropWhile p = l) (hhead : l.head? = some c) : p c = false := by
  cases l with
  | nil => cases hhead
  | cons a t =>
    have ha : a = c := by
      simpa using hhead
    subst ha
    by_cases hp : p a
    · rw [List.dropWhile_cons, if_pos hp] at hself
      have hlen : (t.dropWhile p).length ≤ t.length := (List.dropWhile_suffix p).length_le
      rw [hself] at hlen
      simp at hlen
    · simpa using hp

theorem head_not_ws_of_trimmed (l : Str) (h : trimStr l = l) (c : Char)
    (hhead : l.head? = some c) : isJsWhitespace c = false := by
  have hfront : l.dropWhile isJsWhitespace = l := by
    have := trimStr_front l
    rwa [h] at this
  exact dropWhile_eq_self_head isJsWhitespace l c hfront hhead

theorem last_not_ws_of_trimmed (l : Str) (h : trimStr l = l) (c : Char)
    (hlast : l.getLast? = some c) : isJsWhitespace c = false := by
  have hback : l.reverse.dropWhile isJsWhitespace = l.reverse := by
    have := trimStr_back l
    rwa [h] at this
  exact dropWhile_eq_self_head isJsWhitespace l.reverse c hback
    (by rwa [List.head?_reverse])

theorem trimStr_eq_self_of (l : Str)
    (h1 : ∀ c, l.head? = some c → isJsWhitespace c = false)
    (h2 : ∀ c, l.getLast? = some c → isJsWhitespace c = false) : trimStr l = l := by
  have hfront : l.dropWhile isJsWhitespace = l := by
    cases hl : l with
    | nil => rfl
    | cons a t =>
      have := h1 a (by rw [hl]; rfl)
      rw [List.dropWhile_cons, this]
      simp
  have hback : l.reverse.dropWhile isJsWhitespace = l.reverse := by
    cases hr : l.reverse with
    | nil => rfl
    | cons a t =>
      have ha : l.getLast? = some a := by
        rw [← List.head?_reverse, hr]
        rfl
      have := h2 a ha
      rw [List.dropWhile_cons, this]
      simp
  show (((l.dropWhile isJsWhitespace).reverse).dropWhile isJsWhitespace).reverse = l
  rw [hfront, hback, List.reverse_reverse]

theorem joinWith_head_not_ws (sep : Char) (hsep : isJsWhitespace sep = false)
    (parts : List Str) (hp : ∀ p ∈ parts, trimStr p = p) :
    ∀ c, (joinWith sep parts).head? = some c → isJsWhitespace c = false := by
  induction parts with
  | nil => intro c hc; cases hc
  | cons p rest ih =>
    cases rest with
    | nil =>
      intro c hc
      exact head_not_ws_of_trimmed p (hp p (List.mem_cons_self ..)) c hc
    | cons q rest2 =>
      intro c hc
      cases p with
      | nil =>
        have hcs : c = sep := by
          have : (joinWith sep ([] :: q :: rest2)).head? = some sep := rfl
          rw [this] at hc
          exact (Option.some.inj hc).symm
        rw [hcs]
        exact hsep
      | cons a t =>
        have hca : c = a := by
          have : (joinWith sep ((a :: t) :: q :: rest2)).head? = some a := rfl
          rw [this] at hc
          exact (Option.some.inj hc).symm
        rw [hca]
        exact head_not_ws_of_trimmed (a :: t) (hp _ (List.mem_cons_self ..)) a rfl

theorem joinWith_last_not_ws (sep : Char) (hsep : isJsWhitespace sep = false)
    (parts : List Str) (hp : ∀ p ∈ parts, trimStr p = p) :
    ∀ c, (joinWith sep parts).getLast? = some c → isJsWhitespace c = false := by
  induction parts with
  | nil => intro c hc; cases hc
  | cons p rest ih =>
    cases rest with
    | nil =>
      intro c hc
      exact last_not_ws_of_trimmed p (hp p (List.mem_cons_self ..)) c hc
    | cons q rest2 =>
      intro c hc
      have hjoin : joinWith sep (p :: q :: rest2) = p ++ sep :: joinWith sep (q :: rest2) := rfl
      rw [hjoin, List.getLast?_append_of_ne_nil p (by simp)] at hc
      cases hJ : joinWith sep (q :: rest2) with
      | nil =>
        rw [hJ] at hc
        have hcs : c = sep := by simpa using hc.symm
        rw [hcs]
        exact hsep
      | cons x xs =>
        rw [hJ] at hc
        have hstep : (sep :: x :: xs).getLast? = (x :: xs).getLast? := by
          rw [show sep :: x :: xs = [sep] ++ (x :: xs) from rfl,
            List.getLast?_append_of_ne_nil [sep] (by simp)]
        rw [hstep, ← hJ] at hc
        exact ih (fun y hy => hp y (List.mem_cons_of_mem _ hy)) c hc

theorem joinWith_trimmed (sep : Char) (hsep : isJsWhitespace sep = false)
    (parts : List Str) (hp : ∀ p ∈ parts, trimStr p = p) :
    trimStr (joinWith sep parts) = joinWith sep parts :=
  trimStr_eq_self_of _ (joinWith_head_not_ws sep hsep parts hp)
    (joinWith_last_not_ws sep hsep parts hp)

theorem parseCSVLine_joinWith (cells : List Str) (hne : cells ≠ [])
    (hplain : ∀ cell ∈ cells, plainCell cell) :
    parseCSVLine (joinWith ',' cells) = cells := by
  have hnq : ∀ c ∈ joinWith ',' cells, c ≠ dquote := by
    intro c hc
    rcases mem_joinWith ',' cells c hc with he | ⟨p, hp, hcp⟩
    · rw [he]; decide
    · exact ((hplain p hp).2 c hcp).2.1
  unfold parseCSVLine
  rw [tokAux_false_noQuote _ hnq,
    splitChar_joinWith ',' cells hne (fun p hp hm => ((hplain p hp).2 ',' hm).1 rfl)]
  have : cells.map trimStr = cells.map id := List.map_congr_left (fun a ha => (hplain a ha).1)
  rw [this, List.map_id]

theorem escapeCSVValue_plain (v : Str) (h : plainCell v) : escapeCSVValue v = v := by
  have h1 : v.contains ',' = false :=
    (contains_eq_false_iff v ',').mpr (fun hm => ((h.2 ',' hm).1 rfl))
  have h2 : v.contains dquote = false :=
    (contains_eq_false_iff v dquote).mpr (fun hm => ((h.2 dquote hm).2.1 rfl))
  have h3 : v.contains '\n' = false :=
    (contains_eq_false_iff v '\n').mpr (fun hm => ((h.2 '\n' hm).2.2 rfl))
  unfold escapeCSVValue
  have hcond : (v.contains ',' || v.contains dquote || v.contains '\n') = false := by
    rw [h1, h2, h3]
    rfl
  simp only [hcond, Bool.false_eq_true, if_false]

theorem findColIdx_lt_length (cols : List Str) (key : Str) (i : Nat)
    (h : findColIdx cols key = some i) : i < cols.length := by
  obtain ⟨a, ha, _⟩ := findIdx?_spec _ cols i h
  exact (List.getElem?_eq_some_iff.mp ha).1

theorem findColIdx_unique (cols : List Str) (key : Str) (i j : Nat) (colj : Str)
    (hnodup : (cols.map lowerStr).Nodup)
    (hfind : findColIdx cols key = some i)
    (hj : cols[j]? = some colj) (hkey : lowerStr colj = lowerStr key) : j = i := by
  obtain ⟨a, ha, hpa⟩ := findIdx?_spec _ cols i hfind
  have ha' : lowerStr a = lowerStr key := by simpa using hpa
  obtain ⟨hi, hai⟩ := List.getElem?_eq_some_iff.mp ha
  obtain ⟨hjlt, hcj⟩ := List.getElem?_eq_some_iff.mp hj
  have hmi : i < (cols.map lowerStr).length := by simpa using hi
  have hmj : j < (cols.map lowerStr).length := by simpa using hjlt
  apply (@List.Nodup.getElem_inj_iff Str (cols.map lowerStr) hnodup j hmj i hmi).mp
  rw [List.getElem_map, List.getElem_map, hai, hcj, ha', hkey]

theorem processRow_eval_nometa (line : Str) (cols : List Str) (i1 i2 : Nat) (ci : Option Nat)
    (v1 v2 : Str) (hb : trimStr line ≠ [])
    (hv1 : (parseCSVLine line)[i1]? = some v1) (hv1ne : trimStr v1 ≠ [])
    (hv2 : (parseCSVLine line)[i2]? = some v2) (hv2ne : trimStr v2 ≠ []) :
    processRow line cols [(i1, COLUMN_NAME), (i2, COLUMN_TYPE)]
      [(i1, COLUMN_NAME), (i2, COLUMN_TYPE)] ci =
    .ok { name := trimStr v1
          content := buildContent (parseCSVLine line) cols
            [(i1, COLUMN_NAME), (i2, COLUMN_TYPE)] ci
          type := trimStr v2
          metadata := [] } := by
  unfold processRow
  rw [if_neg (fun h => hb (List.isEmpty_iff.mp h))]
  have hval : validateRowHasRequiredKeys (parseCSVLine line)
      [(i1, COLUMN_NAME), (i2, COLUMN_TYPE)] = true := by
    simp [validateRowHasRequiredKeys, hv1, hv2, truthy,
      isEmpty_false_of_ne _ hv1ne, isEmpty_false_of_ne _ hv2ne]
  have hcond : (!validateRowHasRequiredKeys (parseCSVLine line)
      [(i1, COLUMN_NAME), (i2, COLUMN_TYPE)]) = false := by simp [hval]
  simp only [hcond, Bool.false_eq_true, if_false]
  have hextract : extractKeysOutsideContent (parseCSVLine line)
      [(i1, COLUMN_NAME), (i2, COLUMN_TYPE)] =
      [(COLUMN_NAME, trimStr v1), (COLUMN_TYPE, trimStr v2)] := by
    simp [extractKeysOutsideContent, List.filterMap_cons, hv1, hv2]
  rw [hextract]
  have hgn : mapGet [(COLUMN_NAME, trimStr v1), (COLUMN_TYPE, trimStr v2)] COLUMN_NAME =
      some (trimStr v1) := by
    simp [mapGet, List.find?]
  have hgt : mapGet [(COLUMN_NAME, trimStr v1), (COLUMN_TYPE, trimStr v2)] COLUMN_TYPE =
      some (trimStr v2) := by
    simp [mapGet, List.find?, show ¬(COLUMN_NAME = COLUMN_TYPE) by decide]
  have hgm : mapGet [(COLUMN_NAME, trimStr v1), (COLUMN_TYPE, trimStr v2)] COLUMN_METADATA =
      none := by
    simp [mapGet, List.find?, show ¬(COLUMN_NAME = COLUMN_METADATA) by decide,
      show ¬(COLUMN_TYPE = COLUMN_METADATA) by decide]
  rw [hgn, hgt, hgm]
  rfl

/-- Claim C7 counterexample: for the document name,type,content / a,b,c —
ASCII values, no special characters — the imported record's content is the
re-encoded JSON payload \x7b"CONTENT":"c"\x7d, not the original cell c, so
serializing the imported records (projected back onto the document's own
columns) does not reproduce the document. -/
theorem export_import_roundTrip_counterexample :
    parseCSV "name,type,content\na,b,c".data =
      .ok [{ name := "a".data, content := "\x7b\"CONTENT\":\"c\"\x7d".data,
             type := "b".data, metadata := [] }] ∧
    ({ name := "a".data, content := "\x7b\"CONTENT\":\"c\"\x7d".data,
       type := "b".data, metadata := [] } : CSVRow).content ≠ "c".data ∧
    exportRecords ["name".data, "type".data, "content".data]
      [{ name := "a".data, content := "\x7b\"CONTENT\":\"c\"\x7d".data,
         type := "b".data, metadata := [] }] ≠ "name,type,content\na,b,c".data :=
  ⟨rfl, by decide, by decide⟩

/-- Projecting a record back onto the document's columns recovers the
original row, when every column is one of name, type, metadata (resolved
at unique indices) and the record's fields hold the row's cells. -/
theorem projection_eq_row (cols : List Str) (r : List Str) (i1 i2 : Nat) (mo : Option Nat)
    (rec : CSVRow)
    (hnodup : (cols.map lowerStr).Nodup)
    (hname : findColIdx cols COLUMN_NAME = some i1)
    (htype : findColIdx cols COLUMN_TYPE = some i2)
    (hmeta : findColIdx cols COLUMN_METADATA = mo)
    (hdom : ∀ col ∈ cols, lowerStr col = COLUMN_NAME ∨ lowerStr col = COLUMN_TYPE ∨
      lowerStr col = COLUMN_METADATA)
    (hlen : r.length = cols.length)
    (hrn : rec.name = r.getD i1 [])
    (hrt : rec.type = r.getD i2 [])
    (hrm : rec.metadata = (match mo with | some mi => r.getD mi [] | none => [])) :
    cols.map (fun h => recordField rec (lowerStr h)) = r := by
  apply List.ext_getElem (by simp [hlen])
  intro j hj1 hj2
  have hjc : j < cols.length := by simpa using hj1
  have hcolj : cols[j]? = some cols[j] := List.getElem?_eq_getElem hjc
  rw [List.getElem_map]
  rcases hdom cols[j] (List.getElem_mem hjc) with hn | ht | hm
  · have hj : j = i1 := findColIdx_unique cols COLUMN_NAME i1 j _ hnodup hname hcolj
      (by rw [hn]; rfl)
    subst hj
    rw [hn, show recordField rec COLUMN_NAME = rec.name from rfl, hrn,
      List.getD_eq_getElem?_getD, List.getElem?_eq_getElem hj2]
    rfl
  · have hj : j = i2 := findColIdx_unique cols COLUMN_TYPE i2 j _ hnodup htype hcolj
      (by rw [ht]; rfl)
    subst hj
    rw [ht, show recordField rec COLUMN_TYPE = rec.type from rfl, hrt,
      List.getD_eq_getElem?_getD, List.getElem?_eq_getElem hj2]
    rfl
  · cases mo with
    | none =>
      exfalso
      have := List.findIdx?_eq_none_iff.mp hmeta cols[j] (List.getElem_mem hjc)
      rw [show (lowerStr COLUMN_METADATA) = COLUMN_METADATA from rfl] at this
      simp [hm] at this
    | some mi =>
      have hj : j = mi := findColIdx_unique cols COLUMN_METADATA mi j _ hnodup hmeta hcolj
        (by rw [hm]; rfl)
      subst hj
      rw [hm, show recordField rec COLUMN_METADATA = rec.metadata from rfl, hrm]
      show r.getD j [] = _
      rw [List.getD_eq_getElem?_getD, List.getElem?_eq_getElem hj2]
      rfl

/-- Import-side facts for one plain row: its line tokenizes back to its
cells, the line is not blank, and the required cells are present with
non-empty trimmed (indeed trim-fixed) values. -/
theorem row_import_facts (cols : List Str) (r : List Str) (i1 i2 : Nat)
    (hcolsne : cols ≠ [])
    (hi1 : i1 < cols.length) (hi2 : i2 < cols.length)
    (hlenr : r.length = cols.length)
    (hplainr : ∀ cell ∈ r, plainCell cell)
    (hne1 : r.getD i1 [] ≠ []) (hne2 : r.getD i2 [] ≠ []) :
    parseCSVLine (joinWith ',' r) = r ∧
    trimStr (joinWith ',' r) ≠ [] ∧
    r[i1]? = some (r.getD i1 []) ∧ trimStr (r.getD i1 []) = r.getD i1 [] ∧
    r[i2]? = some (r.getD i2 []) ∧ trimStr (r.getD i2 []) = r.getD i2 [] := by
  have hrne : r ≠ [] := by
    intro he
    rw [he] at hlenr
    exact hcolsne (List.length_eq_zero.mp hlenr.symm)
  have hplr := parseCSVLine_joinWith r hrne hplainr
  have hi1r : i1 < r.length := by rw [hlenr]; exact hi1
  have hi2r : i2 < r.length := by rw [hlenr]; exact hi2
  have hv1 : r[i1]? = some (r.getD i1 []) := by
    rw [List.getD_eq_getElem?_getD, List.getElem?_eq_getElem hi1r]
    rfl
  have hv2 : r[i2]? = some (r.getD i2 []) := by
    rw [List.getD_eq_getElem?_getD, List.getElem?_eq_getElem hi2r]
    rfl
  have hmem1 : r.getD i1 [] ∈ r := by
    rw [List.getD_eq_getElem?_getD, List.getElem?_eq_getElem hi1r]
    exact List.getElem_mem hi1r
  have hmem2 : r.getD i2 [] ∈ r := by
    rw [List.getD_eq_getElem?_getD, List.getElem?_eq_getElem hi2r]
    exact List.getElem_mem hi2r
  have hb : trimStr (joinWith ',' r) ≠ [] := by
    rw [joinWith_trimmed ',' (by decide) r (fun p hp => (hplainr p hp).1)]
    intro he
    rw [he] at hplr
    have hr2 : r = [[]] := by rw [← hplr]; rfl
    rw [hr2] at hne1
    apply hne1
    cases i1 <;> rfl
  exact ⟨hplr, hb, hv1, (hplainr _ hmem1).1, hv2, (hplainr _ hmem2).1⟩

theorem joinWith_ne_nil (sep : Char) (parts : List Str) (hne : parts ≠ [])
    (h : ∀ p ∈ parts, p ≠ []) : joinWith sep parts ≠ [] := by
  match parts with
  | [] => exact absurd rfl hne
  | [p] => exact h p (by simp)
  | p :: q :: rest =>
    show p ++ sep :: joinWith sep (q :: rest) ≠ []
    simp

theorem joinWith_ne_nil_two (sep : Char) (parts : List Str) (h : 2 ≤ parts.length) :
    joinWith sep parts ≠ [] := by
  match parts, h with
  | p :: q :: rest, _ =>
    show p ++ sep :: joinWith sep (q :: rest) ≠ []
    simp

theorem joinWith_head_not_ws_ne (sep : Char) (parts : List Str)
    (hp : ∀ p ∈ parts, trimStr p = p ∧ p ≠ []) :
    ∀ c, (joinWith sep parts).head? = some c → isJsWhitespace c = false := by
  induction parts with
  | nil => intro c hc; cases hc
  | cons p rest ih =>
    cases rest with
    | nil =>
      intro c hc
      exact head_not_ws_of_trimmed p (hp p (List.mem_cons_self ..)).1 c hc
    | cons q rest2 =>
      intro c hc
      cases hpp : p with
      | nil => exact absurd hpp (hp p (List.mem_cons_self ..)).2
      | cons a t =>
        subst hpp
        have hca : c = a := by
          have he : (joinWith sep ((a :: t) :: q :: rest2)).head? = some a := rfl
          rw [he] at hc
          exact (Option.some.inj hc).symm
        rw [hca]
        exact head_not_ws_of_trimmed (a :: t) (hp _ (List.mem_cons_self ..)).1 a rfl

theorem joinWith_last_not_ws_ne (sep : Char) (parts : List Str)
    (hp : ∀ p ∈ parts, trimStr p = p ∧ p ≠ []) :
    ∀ c, (joinWith sep parts).getLast? = some c → isJsWhitespace c = false := by
  induction parts with
  | nil => intro c hc; cases hc
  | cons p rest ih =>
    cases rest with
    | nil =>
      intro c hc
      exact last_not_ws_of_trimmed p (hp p (List.mem_cons_self ..)).1 c hc
    | cons q rest2 =>
      intro c hc
      have hjoin : joinWith sep (p :: q :: rest2) = p ++ sep :: joinWith sep (q :: rest2) := rfl
      rw [hjoin, List.getLast?_append_of_ne_nil p (by simp)] at hc
      have hJ : joinWith sep (q :: rest2) ≠ [] :=
        joinWith_ne_nil sep (q :: rest2) (by simp)
          (fun y hy => (hp y (List.mem_cons_of_mem _ hy)).2)
      cases hJc : joinWith sep (q :: rest2) with
      | nil => exact absurd hJc hJ
      | cons x xs =>
        rw [hJc] at hc
        have hstep : (sep :: x :: xs).getLast? = (x :: xs).getLast? := by
          rw [show sep :: x :: xs = [sep] ++ (x :: xs) from rfl,
            List.getLast?_append_of_ne_nil [sep] (by simp)]
        rw [hstep, ← hJc] at hc
        exact ih (fun y hy => hp y (List.mem_cons_of_mem _ hy)) c hc

theorem joinWith_trimmed_ne (sep : Char) (parts : List Str)
    (hp : ∀ p ∈ parts, trimStr p = p ∧ p ≠ []) :
    trimStr (joinWith sep parts) = joinWith sep parts :=
  trimStr_eq_self_of _ (joinWith_head_not_ws_ne sep parts hp)
    (joinWith_last_not_ws_ne sep parts hp)

theorem findColIdx_name_type_ne (cols : List Str) (i1 i2 : Nat)
    (hname : findColIdx cols COLUMN_NAME = some i1)
    (htype : findColIdx cols COLUMN_TYPE = some i2) : i1 ≠ i2 := by
  intro he
  obtain ⟨a, ha, hpa⟩ := findIdx?_spec _ cols i1 hname
  obtain ⟨b, hb, hpb⟩ := findIdx?_spec _ cols i2 htype
  rw [he] at ha
  rw [ha] at hb
  have hab : a = b := Option.some.inj hb
  have ha' : lowerStr a = lowerStr COLUMN_NAME := by simpa using hpa
  have hb' : lowerStr b = lowerStr COLUMN_TYPE := by simpa using hpb
  rw [hab] at ha'
  rw [ha'] at hb'
  exact absurd hb' (by decide)

/-- Claim C7 amended: the round trip holds for documents whose columns are
only the engine's own record fields (name, type and optionally metadata,
case-insensitively, each resolved at a unique position), with at least one
data row, all cells plain (trim-fixed, no commas, quotes or newlines),
rows of full width and non-empty required cells: importing such a document
and serializing the records back over the document's own columns
reproduces the document verbatim.  Documents with a content column or
extra columns are not reproduced, since their payload is re-encoded (see
the counterexample). -/
theorem export_import_roundTrip_plain (cols : List Str) (rows : List (List Str))
    (i1 i2 : Nat) (mo : Option Nat)
    (hrowsne : rows ≠ [])
    (hname : findColIdx cols COLUMN_NAME = some i1)
    (htype : findColIdx cols COLUMN_TYPE = some i2)
    (hmeta : findColIdx cols COLUMN_METADATA = mo)
    (hnodup : (cols.map lowerStr).Nodup)
    (hcols : ∀ col ∈ cols, plainCell col ∧ col ≠ [] ∧
      (lowerStr col = COLUMN_NAME ∨ lowerStr col = COLUMN_TYPE ∨
        lowerStr col = COLUMN_METADATA))
    (hrows : ∀ r ∈ rows, r.length = cols.length ∧ (∀ cell ∈ r, plainCell cell) ∧
      r.getD i1 [] ≠ [] ∧ r.getD i2 [] ≠ []) :
    ∃ rs, parseCSV (joinWith '\n' ((cols :: rows).map (joinWith ','))) = .ok rs ∧
      exportRecords cols rs = joinWith '\n' ((cols :: rows).map (joinWith ',')) := by
  set X := joinWith '\n' ((cols :: rows).map (joinWith ',')) with hXdef
  have hcolsne : cols ≠ [] := by
    intro he
    rw [he] at hname
    simp [findColIdx] at hname
  have hi1 : i1 < cols.length := findColIdx_lt_length cols COLUMN_NAME i1 hname
  have hi2 : i2 < cols.length := findColIdx_lt_length cols COLUMN_TYPE i2 htype
  have h2cols : 2 ≤ cols.length := by
    have := findColIdx_name_type_ne cols i1 i2 hname htype
    omega
  have hlinesTF : ∀ line ∈ (cols :: rows).map (joinWith ','), trimStr line = line := by
    intro line hl
    obtain ⟨r, hr, rfl⟩ := List.mem_map.mp hl
    apply joinWith_trimmed ',' (by decide)
    intro p hp
    rcases List.mem_cons.mp hr with rfl | hrr
    · exact (hcols p hp).1.1
    · exact ((hrows r hrr).2.1 p hp).1
  have hlinesNE : ∀ line ∈ (cols :: rows).map (joinWith ','), line ≠ [] := by
    intro line hl
    obtain ⟨r, hr, rfl⟩ := List.mem_map.mp hl
    rcases List.mem_cons.mp hr with rfl | hrr
    · exact joinWith_ne_nil_two ',' r h2cols
    · exact joinWith_ne_nil_two ',' r (by rw [(hrows r hrr).1]; exact h2cols)
  have hlinesNoNl : ∀ line ∈ (cols :: rows).map (joinWith ','), '\n' ∉ line := by
    intro line hl hmem
    obtain ⟨r, hr, rfl⟩ := List.mem_map.mp hl
    rcases mem_joinWith ',' r '\n' hmem with he | ⟨p, hp, hcp⟩
    · exact absurd he (by decide)
    · have hpc : plainCell p := by
        rcases List.mem_cons.mp hr with rfl | hrr
        · exact (hcols p hp).1
        · exact (hrows r hrr).2.1 p hp
      exact (hpc.2 '\n' hcp).2.2 rfl
  have hX : trimStr X = X :=
    joinWith_trimmed_ne '\n' _ (fun l hl => ⟨hlinesTF l hl, hlinesNE l hl⟩)
  have hsplit : splitChar '\n' X = (cols :: rows).map (joinWith ',') :=
    splitChar_joinWith '\n' _ (by simp) hlinesNoNl
  have hhdrline : parseCSVLine (joinWith ',' cols) = cols :=
    parseCSVLine_joinWith cols hcolsne (fun c hc => (hcols c hc).1)
  have hhdr : parseHeader (joinWith ',' cols) = some cols := by
    unfold parseHeader
    rw [hhdrline]
    have hmap : cols.map trimStr = cols := by
      have he : cols.map trimStr = cols.map id :=
        List.map_congr_left (fun a ha => (hcols a ha).1.1)
      rw [he, List.map_id]
    have hfil : cols.filter (fun col => !col.isEmpty) = cols :=
      List.filter_eq_self.mpr (fun a ha => by
        rw [isEmpty_false_of_ne a (hcols a ha).2.1]
        rfl)
    simp only [hmap, hfil, isEmpty_false_of_ne cols hcolsne, Bool.false_eq_true, if_false]
  have hreq : validateRequiredKeys cols = some [(i1, COLUMN_NAME), (i2, COLUMN_TYPE)] := by
    simp [validateRequiredKeys, collectKeyIdx, REQUIRED_KEYS, hname, htype]
  have hcontent : findContentColumnIndex cols = none := by
    unfold findContentColumnIndex findColIdx
    rw [List.findIdx?_eq_none_iff]
    intro col hcol
    rcases (hcols col hcol).2.2 with h | h | h <;> rw [h] <;> decide
  have hlenX : 2 ≤ (splitChar '\n' (trimStr X)).length := by
    rw [hX, hsplit]
    have hpos : 0 < rows.length := List.length_pos.mpr hrowsne
    simp only [List.length_map, List.length_cons]
    omega
  have hhdrX : parseHeader ((splitChar '\n' (trimStr X)).headD []) = some cols := by
    rw [hX, hsplit]
    exact hhdr
  have htailX : (splitChar '\n' (trimStr X)).tail = rows.map (joinWith ',') := by
    rw [hX, hsplit]
    rfl
  have hplainOf : ∀ row ∈ cols :: rows, ∀ cell ∈ row, plainCell cell := by
    intro row hrow cell hc
    rcases List.mem_cons.mp hrow with rfl | hrr
    · exact (hcols cell hc).1
    · exact (hrows row hrr).2.1 cell hc
  have hescrows : ∀ row ∈ cols :: rows,
      joinWith ',' (row.map escapeCSVValue) = joinWith ',' row := by
    intro row hrow
    have he : row.map escapeCSVValue = row.map id :=
      List.map_congr_left (fun cell hc => escapeCSVValue_plain cell (hplainOf row hrow cell hc))
    rw [he, List.map_id]
  cases mo with
  | some mi =>
    have hmi : mi < cols.length := findColIdx_lt_length cols COLUMN_METADATA mi hmeta
    have hout : findColumnIndices cols KEYS_OUTSIDE_CONTENT =
        [(i1, COLUMN_NAME), (i2, COLUMN_TYPE), (mi, COLUMN_METADATA)] := by
      simp [findColumnIndices, KEYS_OUTSIDE_CONTENT, List.filterMap_cons, hname, htype, hmeta]
    refine ⟨rows.map (fun r =>
      { name := r.getD i1 [],
        content := buildContent r cols
          [(i1, COLUMN_NAME), (i2, COLUMN_TYPE), (mi, COLUMN_METADATA)] none,
        type := r.getD i2 [],
        metadata := r.getD mi [] }), ?_, ?_⟩
    · rw [parseCSV_ok X cols [(i1, COLUMN_NAME), (i2, COLUMN_TYPE)] hlenX hhdrX hreq,
        htailX, hout, hcontent, List.filterMap_map]
      congr 1
      apply List.filterMap_eq_map_iff_forall_eq_some.mpr
      intro r hr
      obtain ⟨hlenr, hplainr, hne1, hne2⟩ := hrows r hr
      obtain ⟨hplr, hb, hv1, htf1, hv2, htf2⟩ :=
        row_import_facts cols r i1 i2 hcolsne hi1 hi2 hlenr hplainr hne1 hne2
      have h41 : trimStr (r.getD i1 []) ≠ [] := by rw [htf1]; exact hne1
      have h42 : trimStr (r.getD i2 []) ≠ [] := by rw [htf2]; exact hne2
      have heval := processRow_eval_meta (joinWith ',' r) cols i1 i2 mi none
        (r.getD i1 []) (r.getD i2 []) hb (by rw [hplr]; exact hv1) h41
        (by rw [hplr]; exact hv2) h42
      have hmir : mi < r.length := by rw [hlenr]; exact hmi
      have hvm : r[mi]? = some (r.getD mi []) := by
        rw [List.getD_eq_getElem?_getD, List.getElem?_eq_getElem hmir]
        rfl
      have hmemm : r.getD mi [] ∈ r := by
        rw [List.getD_eq_getElem?_getD, List.getElem?_eq_getElem hmir]
        exact List.getElem_mem hmir
      have htfm : trimStr (r.getD mi []) = r.getD mi [] := (hplainr _ hmemm).1
      show (processRow (joinWith ',' r) cols [(i1, COLUMN_NAME), (i2, COLUMN_TYPE)]
        [(i1, COLUMN_NAME), (i2, COLUMN_TYPE), (mi, COLUMN_METADATA)] none).toOption = _
      rw [heval]
      simp only [Except.toOption, hplr, hvm, htf1, htf2, htfm]
    · unfold exportRecords generateCSV
      rw [List.map_map]
      have hproj : rows.map ((fun rec => cols.map fun h => recordField rec (lowerStr h)) ∘
          (fun r => ({ name := r.getD i1 [],
                       content := buildContent r cols
                         [(i1, COLUMN_NAME), (i2, COLUMN_TYPE), (mi, COLUMN_METADATA)] none,
                       type := r.getD i2 [],
                       metadata := r.getD mi [] } : CSVRow))) = rows.map id := by
        apply List.map_congr_left
        intro r hr
        obtain ⟨hlenr, hplainr, hne1, hne2⟩ := hrows r hr
        exact projection_eq_row cols r i1 i2 (some mi) _ hnodup hname htype hmeta
          (fun col hc => (hcols col hc).2.2) hlenr rfl rfl rfl
      rw [hproj, List.map_id, List.map_congr_left hescrows]
  | none =>
    have hout : findColumnIndices cols KEYS_OUTSIDE_CONTENT =
        [(i1, COLUMN_NAME), (i2, COLUMN_TYPE)] := by
      simp [findColumnIndices, KEYS_OUTSIDE_CONTENT, List.filterMap_cons, hname, htype, hmeta]
    refine ⟨rows.map (fun r =>
      { name := r.getD i1 [],
        content := buildContent r cols [(i1, COLUMN_NAME), (i2, COLUMN_TYPE)] none,
        type := r.getD i2 [],
        metadata := [] }), ?_, ?_⟩
    · rw [parseCSV_ok X cols [(i1, COLUMN_NAME), (i2, COLUMN_TYPE)] hlenX hhdrX hreq,
        htailX, hout, hcontent, List.filterMap_map]
      congr 1
      apply List.filterMap_eq_map_iff_forall_eq_some.mpr
      intro r hr
      obtain ⟨hlenr, hplainr, hne1, hne2⟩ := hrows r hr
      obtain ⟨hplr, hb, hv1, htf1, hv2, htf2⟩ :=
        row_import_facts cols r i1 i2 hcolsne hi1 hi2 hlenr hplainr hne1 hne2
      have h41 : trimStr (r.getD i1 []) ≠ [] := by rw [htf1]; exact hne1
      have h42 : trimStr (r.getD i2 []) ≠ [] := by rw [htf2]; exact hne2
      have heval := processRow_eval_nometa (joinWith ',' r) cols i1 i2 none
        (r.getD i1 []) (r.getD i2 []) hb (by rw [hplr]; exact hv1) h41
        (by rw [hplr]; exact hv2) h42
      show (processRow (joinWith ',' r) cols [(i1, COLUMN_NAME), (i2, COLUMN_TYPE)]
        [(i1, COLUMN_NAME), (i2, COLUMN_TYPE)] none).toOption = _
      rw [heval]
      simp only [Except.toOption, hplr, htf1, htf2]
    · unfold exportRecords generateCSV
      rw [List.map_map]
      have hproj : rows.map ((fun rec => cols.map fun h => recordField rec (lowerStr h)) ∘
          (fun r => ({ name := r.getD i1 [],
                       content := buildContent r cols
                         [(i1, COLUMN_NAME), (i2, COLUMN_TYPE)] none,
                       type := r.getD i2 [],
                       metadata := [] } : CSVRow))) = rows.map id := by
        apply List.map_congr_left
        intro r hr
        obtain ⟨hlenr, hplainr, hne1, hne2⟩ := hrows r hr
        exact projection_eq_row cols r i1 i2 none _ hnodup hname htype hmeta
          (fun col hc => (hcols col hc).2.2) hlenr rfl rfl rfl
      rw [hproj, List.map_id, List.map_congr_left hescrows]

/-- Witness for export_import_roundTrip_plain at a concrete document over
the columns name, type, metadata with one data row. -/
theorem export_import_roundTrip_plain_witness :
    ∃ rs, parseCSV (joinWith '\n'
        (([["name".data, "type".data, "metadata".data],
           ["a".data, "b".data, "m1".data]].map (joinWith ',')) :
          List Str)) = .ok rs ∧
      exportRecords ["name".data, "type".data, "metadata".data] rs =
        joinWith '\n'
          ([["name".data, "type".data, "metadata".data],
            ["a".data, "b".data, "m1".data]].map (joinWith ',')) :=
  export_import_roundTrip_plain ["name".data, "type".data, "metadata".data]
    [["a".data, "b".data, "m1".data]] 0 1 (some 2)
    (by decide) (by decide) (by decide) (by decide) (by decide) (by decide) (by decide)
